import Mathlib

/-!
# Verification of the claudeee log-ingestion and windowed-aggregation engine

Shallow embedding of `backend/internal/database/db.go` (the JSONL parser
service: `SyncAllLogs`, `syncProjectLogs`, `parseJSONLFile`, `processLogEntry`,
`insertMessage`, `convertProjectNameToPath`, `extractProjectNameFromCwd`,
`convertContentToString`) together with models of the four store services it
calls (`CreateOrUpdateSession`, `GetOrCreateWindowForMessage`,
`UpdateWindowStats`, `UpdateSessionTokens`), whose implementations are not in
the sources and are therefore modelled from the specification.

Conventions of the embedding:
* timestamps are `Nat` (seconds); the 5-hour billing window is `5 * 60 * 60`;
* strings are ASCII, so Go's byte length of a line coincides with
  `String.length`;
* the durable store (DuckDB tables `sessions`, `messages`, `session_windows`)
  is a `State` record of three lists; `INSERT OR REPLACE` by primary key
  becomes an in-place list replacement;
* JSON decoding (`json.Unmarshal`) is an abstract parameter
  `parse : String → Option LogEntry`, since claims quantify over the
  valid/malformed classification of lines, not over JSON syntax;
* fallible store writes are modelled by a fault oracle assigning each entry a
  `FailPoint`; the no-fault instantiation is the pure pipeline.
-/

namespace Claudeee

/-! ## Data model -/

/-- The polymorphic `message.content` payload of a log record.  Go's
`convertContentToString` switches on the dynamic type produced by
`json.Unmarshal`: a plain string is kept, a structured object or array is
re-serialized by `json.Marshal` (the serialized text is carried in the
constructor, since the core never interprets it), anything else is formatted
with `fmt.Sprintf`. -/
inductive JsonContent where
  | str (s : String)
  | obj (serialized : String)
  | arr (serialized : String)
  | other (formatted : String)
deriving DecidableEq, Repr

/-- `usage` sub-record of a log line (token accounting). -/
structure Usage where
  inputTokens : Nat
  cacheCreationInputTokens : Nat
  cacheReadInputTokens : Nat
  outputTokens : Nat
  serviceTier : String
deriving DecidableEq, Repr

/-- The `message` sub-object of a log line. -/
structure MessageBody where
  type : Option String
  role : String
  model : Option String
  content : Option JsonContent
  usage : Option Usage
deriving DecidableEq, Repr

/-- One parsed JSONL log record (`models.LogEntry`). -/
structure LogEntry where
  uuid : String
  parentUuid : Option String
  sessionId : String
  cwd : String
  timestamp : Nat
  isSidechain : Bool
  userType : String
  requestId : Option String
  message : MessageBody
deriving DecidableEq, Repr

/-- A row of the `messages` table (`models.Message`). -/
structure Message where
  id : String
  sessionId : String
  sessionWindowId : Nat
  parentUuid : Option String
  isSidechain : Bool
  userType : Option String
  messageType : Option String
  messageRole : Option String
  model : Option String
  content : Option String
  inputTokens : Nat
  cacheCreationInputTokens : Nat
  cacheReadInputTokens : Nat
  outputTokens : Nat
  serviceTier : Option String
  requestId : Option String
  timestamp : Nat
deriving DecidableEq, Repr

/-- A row of the `sessions` table. -/
structure Session where
  id : String
  projectName : String
  projectPath : String
  startTime : Nat
  endTime : Nat
  totalInputTokens : Nat
  totalOutputTokens : Nat
  totalTokens : Nat
  messageCount : Nat
  status : String
deriving DecidableEq, Repr

/-- A row of the `session_windows` table.  A window is identified by its
start timestamp (`start`), which doubles as its primary key: windows are keyed
by interval, and no two stored windows share a start (a second window with the
same start would only be created if the first did not cover it). -/
structure Window where
  start : Nat
  stop : Nat
  resetTime : Nat
  totalInputTokens : Nat
  totalOutputTokens : Nat
  totalTokens : Nat
  messageCount : Nat
  sessionCount : Nat
  isActive : Bool
deriving DecidableEq, Repr

/-- The durable store: `sessions`, `messages` and `session_windows` tables,
each a list of rows in insertion order. -/
structure State where
  sessions : List Session
  messages : List Message
  windows : List Window
deriving DecidableEq, Repr

/-- The store right after `createTables` on a fresh database. -/
def emptyState : State := { sessions := [], messages := [], windows := [] }

/-! ## Small string helpers (Go `strings` / `bufio` behavior) -/

/-- ASCII whitespace recognized by `strings.TrimSpace` (the logs are ASCII). -/
def isSpaceGo (c : Char) : Bool :=
  c = ' ' || c = '\t' || c = '\n' || c = '\r'

/-- Trim on the character list: drop leading and trailing whitespace. -/
def trimChars (l : List Char) : List Char :=
  ((l.dropWhile isSpaceGo).reverse.dropWhile isSpaceGo).reverse

/-- Go `strings.TrimSpace`. -/
def goTrim (s : String) : String := ⟨trimChars s.data⟩

/-- Go `strings.HasPrefix` (the embedding is ASCII, so byte-wise and
character-wise agreement coincide). -/
def goStartsWith (s pre : String) : Bool := pre.data.isPrefixOf s.data

/-- Go slicing `s[n:]` on ASCII strings. -/
def goDrop (n : Nat) (s : String) : String := ⟨s.data.drop n⟩

/-- Go `strings.ReplaceAll` with a single-character pattern and
replacement. -/
def goReplaceChar (c r : Char) (s : String) : String :=
  ⟨s.data.map (fun x => if x = c then r else x)⟩

def goSplitOnAux (sep : Char) : List Char → List Char → List String
  | [], acc => [⟨acc.reverse⟩]
  | c :: cs, acc =>
    if c = sep then ⟨acc.reverse⟩ :: goSplitOnAux sep cs []
    else goSplitOnAux sep cs (c :: acc)

/-- Go `strings.Split` with a single-character separator: `n` separators
yield `n + 1` pieces. -/
def goSplitOn (sep : Char) (s : String) : List String := goSplitOnAux sep s.data []

/-- Go `strings.Join`. -/
def goIntercalate (sep : String) : List String → String
  | [] => ""
  | [x] => x
  | x :: xs => x ++ sep ++ goIntercalate sep xs

/-- `maxCapacity` from `parseJSONLFile`: the scanner buffer is grown to
10 MiB, so a line of `maxCapacity` or more bytes makes `bufio.Scanner` fail
with `ErrTooLong` instead of producing the line. -/
def maxCapacity : Nat := 10 * 1024 * 1024

/-- The fixed billing-window length: 5 hours, in seconds. -/
def windowDuration : Nat := 5 * 60 * 60

/-! ## Project path resolution -/

/-- `convertProjectNameToPath`: decode the log directory name; a leading `-`
marks an encoded absolute path whose separators were flattened to `-`. -/
def convertProjectNameToPath (projectName : String) : String :=
  if goStartsWith projectName "-" then
    "/" ++ goReplaceChar '-' '/' (goDrop 1 projectName)
  else projectName

/-- One step of Go `path/filepath.Clean` (unix): process the `/`-separated
elements against a stack, skipping empty and `.` elements and resolving
`..`. -/
def cleanComponents (rooted : Bool) : List String → List String → List String
  | [], stack => stack
  | c :: cs, stack =>
    if c = "" || c = "." then cleanComponents rooted cs stack
    else if c = ".." then
      if stack ≠ [] ∧ stack.getLast? ≠ some ".." then
        cleanComponents rooted cs stack.dropLast
      else if rooted then cleanComponents rooted cs stack
      else cleanComponents rooted cs (stack ++ [".."])
    else cleanComponents rooted cs (stack ++ [c])

/-- Go `path/filepath.Clean` on unix paths. -/
def filepathClean (s : String) : String :=
  if s = "" then "." else
  let rooted := goStartsWith s "/"
  let stack := cleanComponents rooted (goSplitOn '/' s) []
  if stack = [] then (if rooted then "/" else ".")
  else (if rooted then "/" else "") ++ goIntercalate "/" stack

/-- The "common subdirectory" set of `extractProjectNameFromCwd`. -/
def commonSubdirs : List String := ["frontend", "backend", "src", "lib"]

/-- Is this component one of the common subdirectory names? -/
def isCommonSubdir (p : String) : Bool := commonSubdirs.contains p

/-- A path component is meaningful when it is not empty, `.` or `..`
(the guard of both loops in `extractProjectNameFromCwd`). -/
def meaningful (p : String) : Bool :=
  p ≠ "" && p ≠ "." && p ≠ ".."

/-- The nested loops of `extractProjectNameFromCwd`, on the component list
already reversed (deepest component first).  The outer loop stops at the
first meaningful component; if it is a common subdirectory, the inner loop
scans the remaining (shallower) components for the first meaningful one that
is not itself a common subdirectory, defaulting to the common component. -/
def pickName : List String → String
  | [] => "unknown"
  | part :: rest =>
    if meaningful part then
      if isCommonSubdir part then
        match rest.find? (fun pp => meaningful pp && !isCommonSubdir pp) with
        | some pp => pp
        | none => part
      else part
    else pickName rest

/-- `extractProjectNameFromCwd`: derive a project name from a working
directory. -/
def extractProjectNameFromCwd (cwd : String) : String :=
  if cwd = "" then "unknown" else
  let cleanPath := filepathClean cwd
  let parts := goSplitOn '/' cleanPath
  if parts = [] then "unknown"
  else pickName parts.reverse

/-- `convertContentToString`: flatten the polymorphic content to text. -/
def convertContentToString : JsonContent → String
  | .str s => s
  | .obj serialized => serialized
  | .arr serialized => serialized
  | .other formatted => formatted

/-- The project resolution of `processLogEntry` (lines 249-256): prefer the
entry's working directory, else fall back to the log directory name.
Returns `(projectName, projectPath)`. -/
def resolveProject (e : LogEntry) (projectName : String) : String × String :=
  if e.cwd ≠ "" then (extractProjectNameFromCwd e.cwd, e.cwd)
  else (projectName, convertProjectNameToPath projectName)

/-! ## Store services

`CreateOrUpdateSession`, `GetOrCreateWindowForMessage`, `UpdateWindowStats`
and `UpdateSessionTokens` live in service files that are not part of the
sources; each is modelled from the specification. -/

/-- The fresh session row: status `active`, both activity bounds at the
creating timestamp, zeroed counters. -/
def newSession (sid name path : String) (ts : Nat) : Session :=
  { id := sid, projectName := name, projectPath := path,
    startTime := ts, endTime := ts,
    totalInputTokens := 0, totalOutputTokens := 0, totalTokens := 0,
    messageCount := 0, status := "active" }

/-- Per-row effect of a session upsert on an existing table: the matching
row's end-time bound is extended, other rows are untouched. -/
def applySessionEnd (sid : String) (ts : Nat) (ss : Session) : Session :=
  if ss.id == sid then { ss with endTime := max ss.endTime ts } else ss

/-- Modelled from the spec: `SessionService.CreateOrUpdateSession` (§4.4)
is missing from the sources.  "Creates a session row if absent (status
`active`, start = timestamp); if present, extends last-activity/end-time
bounds and leaves identity fields unchanged (first-write-wins on project
name/path)." -/
def createOrUpdateSession (sid name path : String) (ts : Nat) (s : State) : State :=
  if s.sessions.any (fun ss => ss.id == sid) then
    { s with sessions := s.sessions.map (applySessionEnd sid ts) }
  else
    { s with sessions := s.sessions ++ [newSession sid name path ts] }

/-- The fresh 5-hour window rooted at `ts`: `[ts, ts + 5h)`, reset time at
its end, zeroed aggregates, active. -/
def newWindow (ts : Nat) : Window :=
  { start := ts, stop := ts + windowDuration, resetTime := ts + windowDuration,
    totalInputTokens := 0, totalOutputTokens := 0, totalTokens := 0,
    messageCount := 0, sessionCount := 0, isActive := true }

/-- Does window `w` cover timestamp `ts` (the `[start, stop)` convention)? -/
def windowContains (w : Window) (ts : Nat) : Bool :=
  w.start ≤ ts && ts < w.stop

/-- The stored window covering `ts`, scanning in creation order. -/
def findWindow (ws : List Window) (ts : Nat) : Option Window :=
  ws.find? (fun w => windowContains w ts)

/-- Greatest element of a list of naturals, if any. -/
def maxNat? (l : List Nat) : Option Nat :=
  l.foldl (fun acc x =>
    match acc with
    | none => some x
    | some m => some (max m x)) none

/-- Clear the active flag of the window whose end is `m` (the immediately
preceding active window); all other fields and rows are untouched. -/
def deactivateFlag (ts m : Nat) (w : Window) : Window :=
  if w.isActive && w.stop ≤ ts && w.stop == m then { w with isActive := false } else w

/-- Modelled from the spec: on window rollover "mark the immediately
preceding active window (if its `end <= timestamp`) inactive" (§4.5) — the
active window with the greatest end not exceeding the new timestamp. -/
def deactivatePreceding (ts : Nat) (ws : List Window) : List Window :=
  match maxNat? ((ws.filter (fun w => w.isActive && w.stop ≤ ts)).map (fun w => w.stop)) with
  | none => ws
  | some m => ws.map (deactivateFlag ts m)

/-- Modelled from the spec: `SessionWindowService.GetOrCreateWindowForMessage`
(§4.5) is missing from the sources.  "Find the window whose `[start, end)`
contains `timestamp`; if found, use it.  Otherwise create a new window with
`start = timestamp`, `end = start + 5h`, `reset_time = end`,
`is_active = true`, and mark the immediately preceding active window (if its
`end <= timestamp`) inactive."  Returns the assigned window and the store. -/
def getOrCreateWindowForMessage (ts : Nat) (s : State) : Window × State :=
  match findWindow s.windows ts with
  | some w => (w, s)
  | none =>
    (newWindow ts, { s with windows := deactivatePreceding ts s.windows ++ [newWindow ts] })

/-- The `models.Message` row built by `processLogEntry` (lines 262-286) for
entry `e` assigned to the window whose start is `wid`: token fields default
to zero when the `usage` sub-record is absent. -/
def buildMessage (e : LogEntry) (wid : Nat) : Message :=
  { id := e.uuid
    sessionId := e.sessionId
    sessionWindowId := wid
    parentUuid := e.parentUuid
    isSidechain := e.isSidechain
    userType := some e.userType
    messageType := e.message.type
    messageRole := some e.message.role
    model := e.message.model
    content := e.message.content.map convertContentToString
    inputTokens := (e.message.usage.map Usage.inputTokens).getD 0
    cacheCreationInputTokens := (e.message.usage.map Usage.cacheCreationInputTokens).getD 0
    cacheReadInputTokens := (e.message.usage.map Usage.cacheReadInputTokens).getD 0
    outputTokens := (e.message.usage.map Usage.outputTokens).getD 0
    serviceTier := e.message.usage.map Usage.serviceTier
    requestId := e.requestId
    timestamp := e.timestamp }

/-- `insertMessage`: `INSERT OR REPLACE INTO messages` keyed by `id` — an
existing row with the same id is overwritten in place, otherwise the row is
appended. -/
def insertMessage (m : Message) (s : State) : State :=
  if s.messages.any (fun old => old.id == m.id) then
    { s with messages := s.messages.map (fun old => if old.id == m.id then m else old) }
  else
    { s with messages := s.messages ++ [m] }

/-- Sum of `input_tokens` over a message list. -/
def sumInput (ms : List Message) : Nat := (ms.map Message.inputTokens).sum

/-- Sum of `output_tokens` over a message list. -/
def sumOutput (ms : List Message) : Nat := (ms.map Message.outputTokens).sum

/-- Sum of `input_tokens + output_tokens` over a message list. -/
def sumTokens (ms : List Message) : Nat :=
  (ms.map (fun m => m.inputTokens + m.outputTokens)).sum

/-- The messages currently assigned to the window whose start is `wid`. -/
def messagesInWindow (msgs : List Message) (wid : Nat) : List Message :=
  msgs.filter (fun m => m.sessionWindowId == wid)

/-- The messages currently belonging to session `sid`. -/
def messagesInSession (msgs : List Message) (sid : String) : List Message :=
  msgs.filter (fun m => m.sessionId == sid)

/-- Per-row effect of a window-stat recompute: the row with id `wid`
receives the re-summed aggregates over `ms`, other rows are untouched. -/
def applyWindowStats (ms : List Message) (wid : Nat) (w : Window) : Window :=
  if w.start == wid then
    { w with
      totalInputTokens := sumInput ms
      totalOutputTokens := sumOutput ms
      totalTokens := sumTokens ms
      messageCount := ms.length
      sessionCount := (ms.map Message.sessionId).dedup.length }
  else w

/-- Modelled from the spec: `SessionWindowService.UpdateWindowStats` (§4.5
`recomputeStats`) is missing from the sources.  "Re-sums token/message/session
counts for all messages currently assigned to a window." -/
def updateWindowStats (wid : Nat) (s : State) : State :=
  { s with windows := s.windows.map (applyWindowStats (messagesInWindow s.messages wid) wid) }

/-- Per-row effect of a session-counter refresh: the row with id `sid`
receives the re-summed counters over `ms`, other rows are untouched. -/
def applySessionStats (ms : List Message) (sid : String) (ss : Session) : Session :=
  if ss.id == sid then
    { ss with
      totalInputTokens := sumInput ms
      totalOutputTokens := sumOutput ms
      totalTokens := sumTokens ms
      messageCount := ms.length }
  else ss

/-- Modelled from the spec: `TokenService.UpdateSessionTokens` is missing from
the sources.  It refreshes the session's running token/message counters (§3)
from the messages currently belonging to the session. -/
def updateSessionTokens (sid : String) (s : State) : State :=
  { s with sessions := s.sessions.map (applySessionStats (messagesInSession s.messages sid) sid) }

/-! ## Per-record processing -/

/-- `processLogEntry` (lines 247-309): resolve the project, upsert the
session, assign a window, upsert the message row, then eagerly recompute the
window and session aggregates. -/
def processLogEntry (e : LogEntry) (projectName : String) (s : State) : State :=
  let np := resolveProject e projectName
  let s1 := createOrUpdateSession e.sessionId np.1 np.2 e.timestamp s
  let ws2 := getOrCreateWindowForMessage e.timestamp s1
  let m := buildMessage e ws2.1.start
  let s3 := insertMessage m ws2.2
  let s4 := updateWindowStats ws2.1.start s3
  updateSessionTokens e.sessionId s4

/-- Which of the five fallible store calls inside `processLogEntry` fails for
a given record (fault model for per-record store errors; `ok` is the
successful path). -/
inductive FailPoint where
  | ok
  | sessionFail
  | windowFail
  | insertFail
  | statsFail
  | tokensFail
deriving DecidableEq, Repr

/-- `processLogEntry` with an injected store failure: each call before the
failing one has already committed its write (no multi-statement transaction),
so the error carries the partially updated store. -/
def processLogEntryF (fp : FailPoint) (e : LogEntry) (projectName : String)
    (s : State) : Except State State :=
  if fp = .sessionFail then .error s else
  let np := resolveProject e projectName
  let s1 := createOrUpdateSession e.sessionId np.1 np.2 e.timestamp s
  if fp = .windowFail then .error s1 else
  let ws2 := getOrCreateWindowForMessage e.timestamp s1
  if fp = .insertFail then .error ws2.2 else
  let m := buildMessage e ws2.1.start
  let s3 := insertMessage m ws2.2
  if fp = .statsFail then .error s3 else
  let s4 := updateWindowStats ws2.1.start s3
  if fp = .tokensFail then .error s4 else
  .ok (updateSessionTokens e.sessionId s4)

/-- The no-fault oracle: every store write succeeds. -/
def okOracle : LogEntry → FailPoint := fun _ => .ok

/-! ## File parsing and sync drivers -/

/-- Result of `parseJSONLFile` on one file: final store, the counters tracked
by the loop (`lineCount`, `processedCount`), the numbers of logged per-line
parse failures and per-record processing failures, and whether the scanner
stopped with an error (`scanner.Err() != nil`, e.g. a line at or beyond the
10 MiB buffer capacity). -/
structure FileResult where
  state : State
  lineCount : Nat
  processed : Nat
  parseFails : Nat
  recordFails : Nat
  scanErr : Bool
deriving DecidableEq, Repr

/-- The scan loop of `parseJSONLFile` (lines 221-241): per line, a line the
scanner cannot buffer stops the whole file with an error; a line that trims
to empty is skipped; a line the JSON decoder rejects is logged and skipped;
a record the store rejects is logged and skipped (keeping the partial store
effects); otherwise the record is processed and counted. -/
def parseLoop (parse : String → Option LogEntry) (oracle : LogEntry → FailPoint)
    (projectName : String) : List String → State → FileResult
  | [], s =>
    { state := s, lineCount := 0, processed := 0, parseFails := 0,
      recordFails := 0, scanErr := false }
  | l :: ls, s =>
    if l.length < maxCapacity then
      let t := goTrim l
      if t = "" then
        let r := parseLoop parse oracle projectName ls s
        { r with lineCount := r.lineCount + 1 }
      else
        match parse t with
        | none =>
          let r := parseLoop parse oracle projectName ls s
          { r with lineCount := r.lineCount + 1, parseFails := r.parseFails + 1 }
        | some e =>
          match processLogEntryF (oracle e) e projectName s with
          | .ok s' =>
            let r := parseLoop parse oracle projectName ls s'
            { r with lineCount := r.lineCount + 1, processed := r.processed + 1 }
          | .error s' =>
            let r := parseLoop parse oracle projectName ls s'
            { r with lineCount := r.lineCount + 1, recordFails := r.recordFails + 1 }
    else
      { state := s, lineCount := 0, processed := 0, parseFails := 0,
        recordFails := 0, scanErr := true }

/-- `parseJSONLFile`: scan a file's lines against the store. -/
def parseJSONLFile (parse : String → Option LogEntry) (oracle : LogEntry → FailPoint)
    (lines : List String) (projectName : String) (s : State) : FileResult :=
  parseLoop parse oracle projectName lines s

/-- `syncProjectLogs` (lines 185-201): process each `*.jsonl` file of a
project; an unreadable file (`none`) or a file whose parse ended in an error
is logged (counted) and the loop continues with the next file. -/
def syncProjectLogs (parse : String → Option LogEntry) (oracle : LogEntry → FailPoint)
    (projectName : String) : List (Option (List String)) → State × Nat → State × Nat
  | [], acc => acc
  | none :: files, (s, errs) =>
    syncProjectLogs parse oracle projectName files (s, errs + 1)
  | some lines :: files, (s, errs) =>
    let r := parseJSONLFile parse oracle lines projectName s
    syncProjectLogs parse oracle projectName files
      (r.state, if r.scanErr then errs + 1 else errs)

/-- The source log directory layout: whether `os.Stat` and `os.ReadDir`
succeed on `~/.claude/projects`, and the per-project subdirectories, each a
directory name together with its `*.jsonl` files (an unreadable file is
`none`). -/
structure FS where
  statOk : Bool
  readDirOk : Bool
  projects : List (String × List (Option (List String)))
deriving DecidableEq, Repr

/-- The project loop of `SyncAllLogs` (lines 172-180): per-project errors are
logged and the loop continues. -/
def syncProjects (parse : String → Option LogEntry) (oracle : LogEntry → FailPoint) :
    List (String × List (Option (List String))) → State × Nat → State × Nat
  | [], acc => acc
  | (name, files) :: rest, acc =>
    syncProjects parse oracle rest (syncProjectLogs parse oracle name files acc)

/-- `SyncAllLogs` (lines 152-183): a missing or unreadable source directory
aborts the whole sync with a surfaced error; otherwise every project
directory is synced, per-project errors being logged and skipped.  Returns
the final store and the number of logged file-level errors. -/
def syncAllLogs (parse : String → Option LogEntry) (oracle : LogEntry → FailPoint)
    (fs : FS) (s : State) : Except String (State × Nat) :=
  if !fs.statOk then .error "claude projects directory not found"
  else if !fs.readDirOk then .error "failed to read claude projects directory"
  else .ok (syncProjects parse oracle fs.projects (s, 0))

/-! ## Derived corpus view (for stating corpus-level properties) -/

/-- Processing a flat corpus of (entry, log-directory name) pairs in order:
the composite effect of a sync run on the store. -/
def processCorpus : List (LogEntry × String) → State → State
  | [], s => s
  | ep :: rest, s => processCorpus rest (processLogEntry ep.1 ep.2 s)

/-- The entries a single file contributes under the no-fault oracle: lines
are consumed while they fit the scan buffer; of those, the ones that trim
non-empty and parse are processed. -/
def entriesOfFile (parse : String → Option LogEntry) (lines : List String) : List LogEntry :=
  (lines.takeWhile (fun l => decide (l.length < maxCapacity))).filterMap
    (fun l => if goTrim l = "" then none else parse (goTrim l))

/-- The flat corpus a whole sync run processes, in processing order. -/
def corpusOfFS (parse : String → Option LogEntry) (fs : FS) : List (LogEntry × String) :=
  fs.projects.flatMap (fun pr =>
    (pr.2.filterMap id).flatMap (fun lines =>
      (entriesOfFile parse lines).map (fun e => (e, pr.1))))

/-! ## Which table each store operation touches -/

@[simp] theorem createOrUpdateSession_messages (sid n p : String) (ts : Nat) (s : State) :
    (createOrUpdateSession sid n p ts s).messages = s.messages := by
  unfold createOrUpdateSession; split <;> rfl

@[simp] theorem createOrUpdateSession_windows (sid n p : String) (ts : Nat) (s : State) :
    (createOrUpdateSession sid n p ts s).windows = s.windows := by
  unfold createOrUpdateSession; split <;> rfl

@[simp] theorem updateSessionTokens_messages (sid : String) (s : State) :
    (updateSessionTokens sid s).messages = s.messages := rfl

@[simp] theorem updateSessionTokens_windows (sid : String) (s : State) :
    (updateSessionTokens sid s).windows = s.windows := rfl

@[simp] theorem insertMessage_sessions (m : Message) (s : State) :
    (insertMessage m s).sessions = s.sessions := by
  unfold insertMessage; split <;> rfl

@[simp] theorem insertMessage_windows (m : Message) (s : State) :
    (insertMessage m s).windows = s.windows := by
  unfold insertMessage; split <;> rfl

@[simp] theorem updateWindowStats_messages (wid : Nat) (s : State) :
    (updateWindowStats wid s).messages = s.messages := rfl

@[simp] theorem updateWindowStats_sessions (wid : Nat) (s : State) :
    (updateWindowStats wid s).sessions = s.sessions := rfl

@[simp] theorem getOrCreateWindowForMessage_messages (ts : Nat) (s : State) :
    (getOrCreateWindowForMessage ts s).2.messages = s.messages := by
  unfold getOrCreateWindowForMessage; split <;> rfl

@[simp] theorem getOrCreateWindowForMessage_sessions (ts : Nat) (s : State) :
    (getOrCreateWindowForMessage ts s).2.sessions = s.sessions := by
  unfold getOrCreateWindowForMessage; split <;> rfl

/-! ## C4: window aggregate correctness after `recomputeStats` -/

/-- The start (= id) of the window `processLogEntry` assigns to entry `e`:
the result of `GetOrCreateWindowForMessage` after the session upsert. -/
def assignedWindowStart (e : LogEntry) (projectName : String) (s : State) : Nat :=
  (getOrCreateWindowForMessage e.timestamp
    (createOrUpdateSession e.sessionId (resolveProject e projectName).1
      (resolveProject e projectName).2 e.timestamp s)).1.start

theorem updateWindowStats_spec (s : State) (wid : Nat) :
    ∀ w ∈ (updateWindowStats wid s).windows, w.start = wid →
      w.totalInputTokens = sumInput (messagesInWindow (updateWindowStats wid s).messages wid) ∧
      w.totalOutputTokens = sumOutput (messagesInWindow (updateWindowStats wid s).messages wid) ∧
      w.totalTokens = sumTokens (messagesInWindow (updateWindowStats wid s).messages wid) ∧
      w.messageCount = (messagesInWindow (updateWindowStats wid s).messages wid).length := by
  intro w hw hstart
  rw [updateWindowStats_messages]
  simp only [updateWindowStats, List.mem_map] at hw
  obtain ⟨b, _, rfl⟩ := hw
  unfold applyWindowStats at hstart ⊢
  by_cases hb : (b.start == wid) = true
  · rw [if_pos hb]
    exact ⟨rfl, rfl, rfl, rfl⟩
  · rw [if_neg hb] at hstart
    exact absurd (by simp [hstart]) hb

/-- C4: after `UpdateWindowStats` runs for a window — as it does at the end of
every `processLogEntry` for the window the message was assigned to — the
window's stored `total_tokens` equals the sum of `input_tokens +
output_tokens` over all messages currently assigned to that window. -/
theorem c4_recompute_stats_correct :
    (∀ (s : State) (wid : Nat), ∀ w ∈ (updateWindowStats wid s).windows, w.start = wid →
      w.totalTokens = sumTokens (messagesInWindow (updateWindowStats wid s).messages wid)) ∧
    (∀ (e : LogEntry) (pn : String) (s : State),
      ∀ w ∈ (processLogEntry e pn s).windows, w.start = assignedWindowStart e pn s →
        w.totalTokens = sumTokens (messagesInWindow (processLogEntry e pn s).messages w.start)) := by
  constructor
  · intro s wid w hw hstart
    exact (updateWindowStats_spec s wid w hw hstart).2.2.1
  · intro e pn s w hw hstart
    rw [hstart]
    unfold processLogEntry at hw ⊢
    rw [updateSessionTokens_windows] at hw
    rw [updateSessionTokens_messages]
    unfold assignedWindowStart at hstart
    exact (updateWindowStats_spec _ _ w hw hstart).2.2.1

/-! ## Scan-loop lemmas (C3 / C5 / C10) -/

theorem dropWhile_replicate_of_neg (p : Char → Bool) (n : Nat) (c : Char)
    (h : ¬ p c = true) :
    (List.replicate n c).dropWhile p = List.replicate n c := by
  cases n with
  | zero => rfl
  | succ n => simp [List.replicate_succ, List.dropWhile_cons, h]

theorem dropWhile_replicate_of_pos (p : Char → Bool) (n : Nat) (c : Char)
    (h : p c = true) :
    (List.replicate n c).dropWhile p = [] := by
  induction n with
  | zero => rfl
  | succ n ih => simp [List.replicate_succ, List.dropWhile_cons, h, ih]

/-- A 20 MiB line of a single repeated character (a "tens of megabytes"
payload). -/
def bigLine (c : Char) : String := ⟨List.replicate (20 * 1024 * 1024) c⟩

theorem bigLine_length (c : Char) : (bigLine c).length = 20 * 1024 * 1024 :=
  List.length_replicate ..

theorem bigLine_ne (n : Nat) (c : Char) (t : String) (h : t.length ≠ n) :
    (⟨List.replicate n c⟩ : String) ≠ t := by
  intro he
  apply h
  rw [← he]
  exact List.length_replicate ..

theorem goTrim_replicate_of_not_space (n : Nat) (c : Char) (h : isSpaceGo c = false) :
    goTrim ⟨List.replicate n c⟩ = ⟨List.replicate n c⟩ := by
  unfold goTrim trimChars
  show (⟨_⟩ : String) = _
  rw [show (⟨List.replicate n c⟩ : String).data = List.replicate n c from rfl]
  rw [dropWhile_replicate_of_neg _ _ _ (by simp [h]), List.reverse_replicate,
    dropWhile_replicate_of_neg _ _ _ (by simp [h]), List.reverse_replicate]

theorem goTrim_replicate_space (n : Nat) :
    goTrim ⟨List.replicate n ' '⟩ = "" := by
  unfold goTrim trimChars
  show (⟨_⟩ : String) = _
  rw [show (⟨List.replicate n ' '⟩ : String).data = List.replicate n ' ' from rfl]
  rw [dropWhile_replicate_of_pos _ _ _ (by decide)]
  rfl

/-- A line the scanner cannot buffer stops the whole file immediately:
nothing is counted, the store is untouched, and the scan error is
surfaced. -/
theorem parseLoop_too_long (parse : String → Option LogEntry)
    (oracle : LogEntry → FailPoint) (pn l : String) (ls : List String) (s : State)
    (h : ¬ l.length < maxCapacity) :
    parseLoop parse oracle pn (l :: ls) s =
      { state := s, lineCount := 0, processed := 0, parseFails := 0,
        recordFails := 0, scanErr := true } := by
  unfold parseLoop
  rw [if_neg h]

theorem processLogEntryF_ok (e : LogEntry) (pn : String) (s : State) :
    processLogEntryF .ok e pn s = .ok (processLogEntry e pn s) := rfl

theorem parseLoop_all_fit (parse : String → Option LogEntry)
    (oracle : LogEntry → FailPoint) (pn : String) (lines : List String) :
    ∀ s : State, (∀ l ∈ lines, l.length < maxCapacity) →
      (parseLoop parse oracle pn lines s).scanErr = false ∧
      (parseLoop parse oracle pn lines s).lineCount = lines.length := by
  induction lines with
  | nil => exact fun s _ => ⟨rfl, rfl⟩
  | cons l ls ih =>
    intro s h
    have hl : l.length < maxCapacity := h l (List.mem_cons_self _ _)
    have hrest : ∀ x ∈ ls, x.length < maxCapacity :=
      fun x hx => h x (List.mem_cons_of_mem _ hx)
    unfold parseLoop
    rw [if_pos hl]
    dsimp only
    by_cases ht : goTrim l = ""
    · rw [if_pos ht]
      exact ⟨(ih s hrest).1, by rw [(ih s hrest).2]; rfl⟩
    · rw [if_neg ht]
      cases hp : parse (goTrim l) with
      | none =>
        dsimp only
        exact ⟨(ih s hrest).1, by rw [(ih s hrest).2]; rfl⟩
      | some e =>
        dsimp only
        cases hq : processLogEntryF (oracle e) e pn s with
        | ok s' =>
          dsimp only
          exact ⟨(ih s' hrest).1, by rw [(ih s' hrest).2]; rfl⟩
        | error s' =>
          dsimp only
          exact ⟨(ih s' hrest).1, by rw [(ih s' hrest).2]; rfl⟩

@[simp] theorem okOracle_apply (e : LogEntry) : okOracle e = .ok := rfl

@[simp] theorem buildMessage_id (e : LogEntry) (wid : Nat) :
    (buildMessage e wid).id = e.uuid := rfl

/-- A line is "valid" when it survives the blank filter and the JSON decoder
accepts it. -/
def isValidLine (parse : String → Option LogEntry) (l : String) : Bool :=
  !(goTrim l == "") && (parse (goTrim l)).isSome

/-- A line is "malformed" when it is not blank and the JSON decoder rejects
it. -/
def isMalformedLine (parse : String → Option LogEntry) (l : String) : Bool :=
  !(goTrim l == "") && (parse (goTrim l)).isNone

theorem parseLoop_counts (parse : String → Option LogEntry) (pn : String)
    (lines : List String) : ∀ s : State, (∀ l ∈ lines, l.length < maxCapacity) →
    (parseLoop parse okOracle pn lines s).processed = lines.countP (isValidLine parse) ∧
    (parseLoop parse okOracle pn lines s).parseFails = lines.countP (isMalformedLine parse) ∧
    (parseLoop parse okOracle pn lines s).recordFails = 0 := by
  induction lines with
  | nil => exact fun s _ => ⟨rfl, rfl, rfl⟩
  | cons l ls ih =>
    intro s h
    have hl : l.length < maxCapacity := h l (List.mem_cons_self _ _)
    have hrest : ∀ x ∈ ls, x.length < maxCapacity :=
      fun x hx => h x (List.mem_cons_of_mem _ hx)
    unfold parseLoop
    rw [if_pos hl]
    dsimp only
    rw [List.countP_cons, List.countP_cons]
    by_cases ht : goTrim l = ""
    · have hv : isValidLine parse l = false := by simp [isValidLine, ht]
      have hm : isMalformedLine parse l = false := by simp [isMalformedLine, ht]
      rw [if_pos ht]
      exact ⟨by simp [hv, (ih s hrest).1], by simp [hm, (ih s hrest).2.1],
        (ih s hrest).2.2⟩
    · rw [if_neg ht]
      cases hp : parse (goTrim l) with
      | none =>
        have hv : isValidLine parse l = false := by simp [isValidLine, hp]
        have hm : isMalformedLine parse l = true := by simp [isMalformedLine, hp, ht]
        dsimp only
        exact ⟨by simp [hv, (ih s hrest).1], by simp [hm, (ih s hrest).2.1],
          (ih s hrest).2.2⟩
      | some e =>
        have hv : isValidLine parse l = true := by simp [isValidLine, hp, ht]
        have hm : isMalformedLine parse l = false := by simp [isMalformedLine, hp]
        dsimp only
        rw [okOracle_apply, processLogEntryF_ok]
        dsimp only
        exact ⟨by simp [hv, (ih _ hrest).1], by simp [hm, (ih _ hrest).2.1],
          (ih _ hrest).2.2⟩

theorem entriesOfFile_cons_unfit (parse : String → Option LogEntry) (l : String)
    (ls : List String) (h : ¬ l.length < maxCapacity) :
    entriesOfFile parse (l :: ls) = [] := by
  unfold entriesOfFile
  rw [List.takeWhile_cons_of_neg (by simpa using h)]
  rfl

theorem entriesOfFile_cons_fit (parse : String → Option LogEntry) (l : String)
    (ls : List String) (h : l.length < maxCapacity) :
    entriesOfFile parse (l :: ls) =
      (match (if goTrim l = "" then none else parse (goTrim l)) with
        | none => entriesOfFile parse ls
        | some e => e :: entriesOfFile parse ls) := by
  unfold entriesOfFile
  rw [List.takeWhile_cons_of_pos (by simpa using h), List.filterMap_cons]
  cases hx : (if goTrim l = "" then none else parse (goTrim l)) <;> rfl

theorem parseLoop_state (parse : String → Option LogEntry) (pn : String)
    (lines : List String) : ∀ s : State,
    (parseLoop parse okOracle pn lines s).state =
      processCorpus ((entriesOfFile parse lines).map (fun e => (e, pn))) s := by
  induction lines with
  | nil => intro s; rfl
  | cons l ls ih =>
    intro s
    by_cases hl : l.length < maxCapacity
    · rw [entriesOfFile_cons_fit parse l ls hl]
      unfold parseLoop
      rw [if_pos hl]
      dsimp only
      by_cases ht : goTrim l = ""
      · rw [if_pos ht, if_pos ht]
        exact ih s
      · rw [if_neg ht, if_neg ht]
        cases hp : parse (goTrim l) with
        | none =>
          dsimp only
          exact ih s
        | some e =>
          dsimp only
          rw [okOracle_apply, processLogEntryF_ok]
          dsimp only
          exact ih (processLogEntry e pn s)
    · rw [entriesOfFile_cons_unfit parse l ls hl]
      unfold parseLoop
      rw [if_neg hl]
      rfl

theorem any_id_mem (msgs : List Message) (u : String) :
    (msgs.any (fun old => old.id == u)) = true ↔ u ∈ msgs.map Message.id := by
  simp [List.any_eq_true, List.mem_map]

theorem processLogEntry_messages_fresh (e : LogEntry) (pn : String) (s : State)
    (h : ¬ e.uuid ∈ s.messages.map Message.id) :
    (processLogEntry e pn s).messages =
      s.messages ++ [buildMessage e (assignedWindowStart e pn s)] := by
  unfold assignedWindowStart
  unfold processLogEntry
  rw [updateSessionTokens_messages, updateWindowStats_messages]
  unfold insertMessage
  simp only [getOrCreateWindowForMessage_messages, createOrUpdateSession_messages,
    buildMessage_id]
  rw [if_neg (fun hc => h ((any_id_mem s.messages e.uuid).1 hc))]

theorem processCorpus_length (es : List (LogEntry × String)) : ∀ s : State,
    ((s.messages.map Message.id) ++ es.map (fun ep => ep.1.uuid)).Nodup →
    (processCorpus es s).messages.length = s.messages.length + es.length := by
  induction es with
  | nil => intro s _; simp [processCorpus]
  | cons ep rest ih =>
    intro s h
    have hfresh : ¬ ep.1.uuid ∈ s.messages.map Message.id := by
      intro hmem
      rw [List.nodup_append] at h
      exact h.2.2 hmem (List.mem_cons_self _ _)
    have hmsgs := processLogEntry_messages_fresh ep.1 ep.2 s hfresh
    have hnodup : (((processLogEntry ep.1 ep.2 s).messages.map Message.id) ++
        rest.map (fun ep => ep.1.uuid)).Nodup := by
      rw [hmsgs, List.map_append]
      show ((s.messages.map Message.id ++ [ep.1.uuid]) ++ _).Nodup
      rw [List.append_assoc, List.singleton_append]
      exact h
    show (processCorpus rest (processLogEntry ep.1 ep.2 s)).messages.length = _
    rw [ih (processLogEntry ep.1 ep.2 s) hnodup, hmsgs]
    simp
    omega

theorem length_filterMap_eq_countP {α β : Type} (f : α → Option β) (l : List α) :
    (l.filterMap f).length = l.countP (fun a => (f a).isSome) := by
  induction l with
  | nil => rfl
  | cons a l ih => cases hf : f a <;>
      simp [List.filterMap_cons, hf, List.countP_cons, ih]

theorem entriesOfFile_length (parse : String → Option LogEntry)
    (lines : List String) (h : ∀ l ∈ lines, l.length < maxCapacity) :
    (entriesOfFile parse lines).length = lines.countP (isValidLine parse) := by
  unfold entriesOfFile
  rw [List.takeWhile_eq_self_iff.2 (fun x hx => by simpa using h x hx)]
  rw [length_filterMap_eq_countP]
  apply List.countP_congr
  intro a _
  by_cases ht : goTrim a = "" <;> simp [isValidLine, ht]

/-! ## Concrete fixtures used by witnesses -/

/-- A concrete stored message with 3 input and 4 output tokens, assigned to
the window starting at 0. -/
def fixMsg1 : Message :=
  { id := "m1", sessionId := "s1", sessionWindowId := 0, parentUuid := none,
    isSidechain := false, userType := some "external", messageType := some "message",
    messageRole := some "assistant", model := some "claude", content := some "hi",
    inputTokens := 3, cacheCreationInputTokens := 0, cacheReadInputTokens := 0,
    outputTokens := 4, serviceTier := none, requestId := none, timestamp := 10 }

/-- A concrete window `[0, 18000)` with zeroed aggregates. -/
def fixWin0 : Window :=
  { start := 0, stop := 18000, resetTime := 18000, totalInputTokens := 0,
    totalOutputTokens := 0, totalTokens := 0, messageCount := 0, sessionCount := 0,
    isActive := true }

/-- A store holding `fixMsg1` and the (stale) window `fixWin0`. -/
def fixState1 : State := { sessions := [], messages := [fixMsg1], windows := [fixWin0] }

/-- `fixWin0` after its aggregates are recomputed over `fixState1`. -/
def fixWin0After : Window :=
  { fixWin0 with
    totalInputTokens := 3
    totalOutputTokens := 4
    totalTokens := 7
    messageCount := 1
    sessionCount := 1 }

/-! ## C7 / C8: project resolution -/

/-- The name-derivation rule as the specification words it (§4.3): walk the
path from its deepest meaningful component backward; if the deepest component
is in the generic-subdirectory set, use the innermost non-generic ancestor
when one exists, else the deepest meaningful component itself.  The argument
is the list of meaningful components, deepest first. -/
def walkNameSpec : List String → String
  | [] => "unknown"
  | deepest :: ancestors =>
    if isCommonSubdir deepest then
      (ancestors.find? (fun p => !isCommonSubdir p)).getD deepest
    else deepest

/-- The whole resolution rule as the specification words it: clean the
working directory, keep its meaningful components, and apply the walk. -/
def projectNameSpec (cwd : String) : String :=
  if cwd = "" then "unknown"
  else walkNameSpec (((goSplitOn '/' (filepathClean cwd)).filter meaningful).reverse)

theorem find?_filter_eq {α : Type} (l : List α) (p q : α → Bool) :
    (l.filter q).find? p = l.find? (fun a => p a && q a) := by
  induction l with
  | nil => rfl
  | cons a l ih =>
    by_cases hq : q a = true
    · by_cases hp : p a = true <;> simp [List.filter_cons, hq, hp, List.find?_cons, ih]
    · simp [List.filter_cons, hq, List.find?_cons, ih]

theorem pickName_eq_walkNameSpec (l : List String) :
    pickName l = walkNameSpec (l.filter meaningful) := by
  induction l with
  | nil => rfl
  | cons part rest ih =>
    by_cases hm : meaningful part = true
    · rw [List.filter_cons_of_pos hm]
      simp only [pickName, walkNameSpec]
      rw [if_pos hm]
      by_cases hc : isCommonSubdir part = true
      · rw [if_pos hc]
        rw [find?_filter_eq rest (fun p => !isCommonSubdir p) meaningful]
        have hpred : (fun a => !isCommonSubdir a && meaningful a) =
            (fun pp => meaningful pp && !isCommonSubdir pp) := by
          funext a; exact Bool.and_comm ..
        rw [hpred]
        cases hfind : rest.find? (fun pp => meaningful pp && !isCommonSubdir pp) <;>
          simp [hc]
      · rw [if_neg hc, if_neg hc]
    · rw [List.filter_cons_of_neg hm]
      simp only [pickName]
      rw [if_neg hm]
      exact ih

/-- C7: an entry with a non-empty working directory resolves with the
working directory verbatim as project path and
`extractProjectNameFromCwd` as name; the name derivation agrees everywhere
with the specification's backward walk over meaningful components that skips
the generic-subdirectory set; and `/home/u/code/myproj/backend` yields
`myproj`.  Determinism is inherent: resolution is a pure function of the
working-directory string. -/
theorem c7_cwd_resolution :
    (∀ (e : LogEntry) (pn : String), e.cwd ≠ "" →
      resolveProject e pn = (extractProjectNameFromCwd e.cwd, e.cwd)) ∧
    (∀ cwd : String, extractProjectNameFromCwd cwd = projectNameSpec cwd) ∧
    extractProjectNameFromCwd "/home/u/code/myproj/backend" = "myproj" := by
  refine ⟨?_, ?_, by decide⟩
  · intro e pn h
    unfold resolveProject
    rw [if_pos h]
  · intro cwd
    unfold extractProjectNameFromCwd projectNameSpec
    by_cases h0 : cwd = ""
    · rw [if_pos h0, if_pos h0]
    · rw [if_neg h0, if_neg h0]
      by_cases hparts : goSplitOn '/' (filepathClean cwd) = []
      · rw [if_pos hparts, hparts]
        rfl
      · rw [if_neg hparts, pickName_eq_walkNameSpec, List.filter_reverse]

/-- A concrete usage sub-record. -/
def fixUsage : Usage :=
  { inputTokens := 100, cacheCreationInputTokens := 0, cacheReadInputTokens := 0,
    outputTokens := 50, serviceTier := "standard" }

/-- A concrete message body. -/
def fixBody : MessageBody :=
  { type := some "message", role := "assistant", model := some "claude",
    content := some (.str "hi"), usage := some fixUsage }

/-- A concrete log entry carrying an explicit working directory. -/
def fixEntryCwd : LogEntry :=
  { uuid := "u1", parentUuid := none, sessionId := "s1",
    cwd := "/home/u/code/myproj/backend", timestamp := 100, isSidechain := false,
    userType := "external", requestId := none, message := fixBody }

theorem c7_cwd_resolution_witness :
    fixEntryCwd.cwd ≠ "" ∧
    resolveProject fixEntryCwd "dir" = ("myproj", "/home/u/code/myproj/backend") := by
  refine ⟨by decide, ?_⟩
  rw [c7_cwd_resolution.1 fixEntryCwd "dir" (by decide)]
  decide

/-- C8: an entry without a working directory falls back to the log file's
enclosing directory name: the raw directory name becomes the project name,
and when that name begins with `-` the project path is the absolute path
obtained by dropping the leading `-` and turning every remaining `-` into
`/` (so the leading separator is restored). -/
theorem c8_fallback_resolution :
    (∀ (e : LogEntry) (pn : String), e.cwd = "" →
      resolveProject e pn = (pn, convertProjectNameToPath pn)) ∧
    (∀ pn : String, goStartsWith pn "-" = true →
      convertProjectNameToPath pn = "/" ++ goReplaceChar '-' '/' (goDrop 1 pn)) ∧
    convertProjectNameToPath "-home-u-proj" = "/home/u/proj" := by
  refine ⟨?_, ?_, by decide⟩
  · intro e pn h
    unfold resolveProject
    rw [if_neg (by simp [h])]
  · intro pn h
    unfold convertProjectNameToPath
    rw [if_pos h]

/-- A concrete log entry with no working directory. -/
def fixEntryNoCwd : LogEntry :=
  { uuid := "u2", parentUuid := none, sessionId := "s1", cwd := "",
    timestamp := 700, isSidechain := false, userType := "external",
    requestId := none, message := fixBody }

theorem c8_fallback_resolution_witness :
    fixEntryNoCwd.cwd = "" ∧
    resolveProject fixEntryNoCwd "-home-u-proj" = ("-home-u-proj", "/home/u/proj") := by
  refine ⟨rfl, ?_⟩
  rw [c8_fallback_resolution.1 fixEntryNoCwd "-home-u-proj" rfl]
  decide

/-! ## C9: the session write precedes the message write -/

/-- The store after only the session upsert of `processLogEntry` for entry
`e` has run. -/
def sessionUpsertOf (e : LogEntry) (pn : String) (s : State) : State :=
  createOrUpdateSession e.sessionId (resolveProject e pn).1 (resolveProject e pn).2
    e.timestamp s

/-- The store after the session upsert and the window lookup/creation of
`processLogEntry` for entry `e` have run, but before the message write. -/
def windowStepOf (e : LogEntry) (pn : String) (s : State) : State :=
  (getOrCreateWindowForMessage e.timestamp (sessionUpsertOf e pn s)).2

theorem createOrUpdateSession_has_session (sid n p : String) (ts : Nat) (s : State) :
    ((createOrUpdateSession sid n p ts s).sessions.any (fun ss => ss.id == sid)) = true := by
  unfold createOrUpdateSession
  by_cases h : s.sessions.any (fun ss => ss.id == sid) = true
  · rw [if_pos h]
    show (s.sessions.map _).any _ = true
    rw [List.any_map]
    have heq : ((fun ss : Session => ss.id == sid) ∘ applySessionEnd sid ts) =
        (fun ss : Session => ss.id == sid) := by
      funext ss
      unfold applySessionEnd
      by_cases hss : ss.id = sid <;> simp [hss]
    rw [heq]
    exact h
  · rw [if_neg h]
    simp [List.any_append, newSession]

theorem createOrUpdateSession_endTime (sid n p : String) (ts : Nat) (s : State) :
    ∀ ss ∈ (createOrUpdateSession sid n p ts s).sessions, ss.id = sid →
      ts ≤ ss.endTime := by
  unfold createOrUpdateSession
  by_cases h : s.sessions.any (fun ss => ss.id == sid) = true
  · rw [if_pos h]
    intro ss hss hid
    simp only [List.mem_map] at hss
    obtain ⟨b, _, rfl⟩ := hss
    unfold applySessionEnd at hid ⊢
    by_cases hbid : (b.id == sid) = true
    · rw [if_pos hbid]
      exact le_max_right ..
    · rw [if_neg hbid] at hid
      exact absurd (by simp [hid]) hbid
  · rw [if_neg h]
    intro ss hss hid
    rcases List.mem_append.1 hss with hold | hnew
    · exact absurd (List.any_eq_true.2 ⟨ss, hold, by simp [hid]⟩) h
    · simp only [List.mem_singleton] at hnew
      subst hnew
      exact le_refl ..

/-- C9: per-record processing is not atomic — the session row is created or
updated before the message row is written, so a failure at the window lookup
or at the message insert loses the message but keeps the session write: the
error state has the original messages table, yet already contains a session
row for the entry's session id whose last activity covers the entry's
timestamp. -/
theorem c9_session_before_message (e : LogEntry) (pn : String) (s : State) :
    processLogEntryF .windowFail e pn s = .error (sessionUpsertOf e pn s) ∧
    processLogEntryF .insertFail e pn s = .error (windowStepOf e pn s) ∧
    (sessionUpsertOf e pn s).messages = s.messages ∧
    (windowStepOf e pn s).messages = s.messages ∧
    ((sessionUpsertOf e pn s).sessions.any (fun ss => ss.id == e.sessionId)) = true ∧
    ((windowStepOf e pn s).sessions.any (fun ss => ss.id == e.sessionId)) = true ∧
    (∀ ss ∈ (sessionUpsertOf e pn s).sessions, ss.id = e.sessionId →
      e.timestamp ≤ ss.endTime) := by
  refine ⟨rfl, rfl, ?_, ?_, ?_, ?_, ?_⟩
  · exact createOrUpdateSession_messages ..
  · rw [windowStepOf, getOrCreateWindowForMessage_messages]
    exact createOrUpdateSession_messages ..
  · exact createOrUpdateSession_has_session ..
  · rw [windowStepOf, getOrCreateWindowForMessage_sessions]
    exact createOrUpdateSession_has_session ..
  · exact createOrUpdateSession_endTime _ _ _ _ _

/-- The session row created by processing `fixEntryNoCwd` from the empty
store. -/
def fixSessionS1 : Session :=
  { id := "s1", projectName := "p", projectPath := "p", startTime := 700,
    endTime := 700, totalInputTokens := 0, totalOutputTokens := 0,
    totalTokens := 0, messageCount := 0, status := "active" }

theorem c9_session_before_message_witness :
    processLogEntryF .windowFail fixEntryNoCwd "p" emptyState =
      .error (sessionUpsertOf fixEntryNoCwd "p" emptyState) ∧
    (sessionUpsertOf fixEntryNoCwd "p" emptyState).messages = emptyState.messages ∧
    (fixSessionS1 ∈ (sessionUpsertOf fixEntryNoCwd "p" emptyState).sessions ∧
      fixSessionS1.id = "s1") ∧
    fixEntryNoCwd.timestamp ≤ fixSessionS1.endTime :=
  ⟨(c9_session_before_message fixEntryNoCwd "p" emptyState).1,
   (c9_session_before_message fixEntryNoCwd "p" emptyState).2.2.1,
   ⟨by decide, rfl⟩,
   (c9_session_before_message fixEntryNoCwd "p" emptyState).2.2.2.2.2.2
     fixSessionS1 (by decide) rfl⟩

theorem c4_recompute_stats_correct_witness :
    (fixWin0After ∈ (updateWindowStats 0 fixState1).windows ∧ fixWin0After.start = 0) ∧
    fixWin0After.totalTokens = sumTokens (messagesInWindow (updateWindowStats 0 fixState1).messages 0) :=
  ⟨⟨by decide, rfl⟩, c4_recompute_stats_correct.1 fixState1 0 fixWin0After (by decide) rfl⟩

/-- A JSON decoder accepting exactly the line `v`, decoded as
`fixEntryNoCwd`. -/
def parseOnlyV : String → Option LogEntry :=
  fun t => if t = "v" then some fixEntryNoCwd else none

/-! ## C5: line size bound of the scanner -/

/-- C5 (amended): lines below the 10 MiB (`maxCapacity`) scanner buffer are
all consumed without a scan error, one scanner token per line; a line at or
beyond the capacity triggers the scanner's token-too-long error immediately,
leaving the store untouched and the remainder of the file unread. -/
theorem c5_scan_capacity :
    (∀ (parse : String → Option LogEntry) (oracle : LogEntry → FailPoint)
      (lines : List String) (pn : String) (s : State),
      (∀ l ∈ lines, l.length < maxCapacity) →
      (parseJSONLFile parse oracle lines pn s).scanErr = false ∧
      (parseJSONLFile parse oracle lines pn s).lineCount = lines.length) ∧
    (∀ (parse : String → Option LogEntry) (oracle : LogEntry → FailPoint)
      (l pn : String) (ls : List String) (s : State), maxCapacity ≤ l.length →
      parseJSONLFile parse oracle (l :: ls) pn s =
        { state := s, lineCount := 0, processed := 0, parseFails := 0,
          recordFails := 0, scanErr := true }) := by
  constructor
  · intro parse oracle lines pn s h
    exact parseLoop_all_fit parse oracle pn lines s h
  · intro parse oracle l pn ls s h
    exact parseLoop_too_long parse oracle pn l ls s (by omega)

theorem c5_scan_capacity_witness :
    ((∀ l ∈ ["v"], String.length l < maxCapacity) ∧
      (parseJSONLFile parseOnlyV okOracle ["v"] "p" emptyState).scanErr = false ∧
      (parseJSONLFile parseOnlyV okOracle ["v"] "p" emptyState).lineCount = 1) ∧
    (maxCapacity ≤ (bigLine 'b').length ∧
      parseJSONLFile parseOnlyV okOracle [bigLine 'b'] "q" emptyState =
        { state := emptyState, lineCount := 0, processed := 0, parseFails := 0,
          recordFails := 0, scanErr := true }) := by
  have hfit : ∀ l ∈ ["v"], String.length l < maxCapacity := by decide
  have hbig : maxCapacity ≤ (bigLine 'b').length := by rw [bigLine_length]; decide
  exact ⟨⟨hfit, (c5_scan_capacity.1 parseOnlyV okOracle ["v"] "p" emptyState hfit).1,
      (c5_scan_capacity.1 parseOnlyV okOracle ["v"] "p" emptyState hfit).2⟩,
    hbig, c5_scan_capacity.2 parseOnlyV okOracle (bigLine 'b') "q" [] emptyState hbig⟩

/-- C5 counterexample: a 20 MiB line — squarely in the claimed "tens of
megabytes" range — is not read at all: the scanner's line-too-long error
path fires and the line is never processed. -/
theorem c5_counterexample :
    (bigLine 'a').length = 20 * 1024 * 1024 ∧
    (parseJSONLFile parseOnlyV okOracle [bigLine 'a'] "p" emptyState).scanErr = true ∧
    (parseJSONLFile parseOnlyV okOracle [bigLine 'a'] "p" emptyState).lineCount = 0 ∧
    (parseJSONLFile parseOnlyV okOracle [bigLine 'a'] "p" emptyState).processed = 0 := by
  have habort : parseJSONLFile parseOnlyV okOracle [bigLine 'a'] "p" emptyState =
      { state := emptyState, lineCount := 0, processed := 0, parseFails := 0,
        recordFails := 0, scanErr := true } :=
    parseLoop_too_long parseOnlyV okOracle "p" (bigLine 'a') [] emptyState
      (by rw [bigLine_length]; decide)
  exact ⟨bigLine_length 'a', by rw [habort], by rw [habort], by rw [habort]⟩

/-! ## C10: blank lines -/

theorem parseLoop_blank_skip (parse : String → Option LogEntry)
    (oracle : LogEntry → FailPoint) (pn : String) (post : List String) (l : String)
    (ht : goTrim l = "") (hl : l.length < maxCapacity) :
    ∀ (pre : List String) (s : State), (∀ x ∈ pre, x.length < maxCapacity) →
    parseLoop parse oracle pn (pre ++ l :: post) s =
      { (parseLoop parse oracle pn (pre ++ post) s) with
        lineCount := (parseLoop parse oracle pn (pre ++ post) s).lineCount + 1 } := by
  intro pre
  induction pre with
  | nil =>
    intro s _
    conv_rhs => rw [List.nil_append]
    show parseLoop parse oracle pn (l :: post) s = _
    conv_lhs => rw [parseLoop]
    rw [if_pos hl]
    dsimp only
    rw [if_pos ht]
  | cons a pre ih =>
    intro s hpre
    have ha := hpre a (List.mem_cons_self _ _)
    have hpre' : ∀ x ∈ pre, x.length < maxCapacity :=
      fun x hx => hpre x (List.mem_cons_of_mem _ hx)
    show parseLoop parse oracle pn (a :: (pre ++ l :: post)) s = _
    conv_rhs => rw [List.cons_append]
    conv_lhs => rw [parseLoop]
    conv_rhs => rw [parseLoop]
    rw [if_pos ha, if_pos ha]
    dsimp only
    by_cases hta : goTrim a = ""
    · rw [if_pos hta, if_pos hta, ih s hpre']
    · rw [if_neg hta, if_neg hta]
      cases hpa : parse (goTrim a) with
      | none =>
        dsimp only
        rw [ih s hpre']
      | some e =>
        dsimp only
        cases hq : processLogEntryF (oracle e) e pn s with
        | ok s' =>
          dsimp only
          rw [ih s' hpre']
        | error s' =>
          dsimp only
          rw [ih s' hpre']

/-- C10 (amended): an input line that fits the scan buffer and trims to
empty is silently skipped — same store, same processed count, same
parse-failure and record-failure counts, same scan status; only the line
counter advances by one. -/
theorem c10_whitespace_lines (parse : String → Option LogEntry)
    (oracle : LogEntry → FailPoint) (pre post : List String) (l pn : String)
    (s : State) (hpre : ∀ x ∈ pre, x.length < maxCapacity)
    (hl : l.length < maxCapacity) (ht : goTrim l = "") :
    parseJSONLFile parse oracle (pre ++ l :: post) pn s =
      { (parseJSONLFile parse oracle (pre ++ post) pn s) with
        lineCount := (parseJSONLFile parse oracle (pre ++ post) pn s).lineCount + 1 } :=
  parseLoop_blank_skip parse oracle pn post l ht hl pre s hpre

theorem c10_whitespace_lines_witness :
    ((∀ x ∈ ([] : List String), x.length < maxCapacity) ∧
      ("  " : String).length < maxCapacity ∧ goTrim "  " = "") ∧
    parseJSONLFile parseOnlyV okOracle ["  ", "v"] "p" emptyState =
      { (parseJSONLFile parseOnlyV okOracle ["v"] "p" emptyState) with
        lineCount := (parseJSONLFile parseOnlyV okOracle ["v"] "p" emptyState).lineCount + 1 } := by
  refine ⟨⟨by decide, by decide, by decide⟩, ?_⟩
  exact c10_whitespace_lines parseOnlyV okOracle [] ["v"] "  " "p" emptyState
    (by decide) (by decide) (by decide)

/-- C10 counterexample: a whitespace-only line of 20 MiB is not silently
skipped — it aborts the file with a scan error, so the valid line after it
is never ingested (whereas the file without the whitespace line persists
it). -/
theorem c10_counterexample :
    goTrim (bigLine ' ') = "" ∧
    (parseJSONLFile parseOnlyV okOracle [bigLine ' ', "v"] "p" emptyState).scanErr = true ∧
    (parseJSONLFile parseOnlyV okOracle [bigLine ' ', "v"] "p" emptyState).processed = 0 ∧
    (parseJSONLFile parseOnlyV okOracle [bigLine ' ', "v"] "p" emptyState).state.messages = [] ∧
    (parseJSONLFile parseOnlyV okOracle ["v"] "p" emptyState).processed = 1 := by
  have habort : parseJSONLFile parseOnlyV okOracle [bigLine ' ', "v"] "p" emptyState =
      { state := emptyState, lineCount := 0, processed := 0, parseFails := 0,
        recordFails := 0, scanErr := true } :=
    parseLoop_too_long parseOnlyV okOracle "p" (bigLine ' ') ["v"] emptyState
      (by rw [bigLine_length]; decide)
  exact ⟨goTrim_replicate_space _, by rw [habort], by rw [habort],
    by rw [habort]; rfl, by decide⟩

/-! ## C3: valid/malformed line accounting -/

/-- C3 (amended): provided every line fits the 10 MiB scan buffer, a file
containing N valid lines and M malformed lines, in any interleaving, yields
exactly N processed (persisted) lines and exactly M recorded parse failures,
with no record failures; starting from the empty store, when the N decoded
ids are pairwise distinct exactly N message rows result. -/
theorem c3_valid_malformed_counts (parse : String → Option LogEntry)
    (lines : List String) (pn : String)
    (hfit : ∀ l ∈ lines, l.length < maxCapacity) :
    (∀ s : State,
      (parseJSONLFile parse okOracle lines pn s).processed =
        lines.countP (isValidLine parse) ∧
      (parseJSONLFile parse okOracle lines pn s).parseFails =
        lines.countP (isMalformedLine parse) ∧
      (parseJSONLFile parse okOracle lines pn s).recordFails = 0) ∧
    (((entriesOfFile parse lines).map LogEntry.uuid).Nodup →
      (parseJSONLFile parse okOracle lines pn emptyState).state.messages.length =
        lines.countP (isValidLine parse)) := by
  constructor
  · intro s
    exact parseLoop_counts parse pn lines s hfit
  · intro hnodup
    unfold parseJSONLFile
    rw [parseLoop_state parse pn lines emptyState]
    have hn : ((emptyState.messages.map Message.id) ++
        ((entriesOfFile parse lines).map (fun e => (e, pn))).map
          (fun ep => ep.1.uuid)).Nodup := by
      simpa using hnodup
    rw [processCorpus_length _ emptyState hn, List.length_map,
      entriesOfFile_length parse lines hfit]
    simp [emptyState]

theorem c3_valid_malformed_counts_witness :
    (∀ l ∈ ["v", "", "junk"], String.length l < maxCapacity) ∧
    (["v", "", "junk"].countP (isValidLine parseOnlyV) = 1 ∧
      ["v", "", "junk"].countP (isMalformedLine parseOnlyV) = 1) ∧
    ((parseJSONLFile parseOnlyV okOracle ["v", "", "junk"] "p" emptyState).processed = 1 ∧
      (parseJSONLFile parseOnlyV okOracle ["v", "", "junk"] "p" emptyState).parseFails = 1 ∧
      (parseJSONLFile parseOnlyV okOracle ["v", "", "junk"] "p" emptyState).state.messages.length = 1) := by
  have hfit : ∀ l ∈ ["v", "", "junk"], String.length l < maxCapacity := by decide
  have h := c3_valid_malformed_counts parseOnlyV ["v", "", "junk"] "p" hfit
  refine ⟨hfit, ⟨by decide, by decide⟩, ?_, ?_, ?_⟩
  · rw [(h.1 emptyState).1]
    decide
  · rw [(h.1 emptyState).2.1]
    decide
  · rw [h.2 (by decide)]
    decide

/-- C3 counterexample: a file holding one malformed line of 20 MiB followed
by one valid line persists no message and records no parse failure — the
oversized malformed line aborts the scan, so N = 1 valid lines yield 0
persisted messages and M = 1 malformed lines yield 0 recorded parse
failures, and the malformed line did prevent ingestion of the line after
it. -/
theorem c3_counterexample :
    isMalformedLine parseOnlyV (bigLine 'x') = true ∧
    isValidLine parseOnlyV "v" = true ∧
    (parseJSONLFile parseOnlyV okOracle [bigLine 'x', "v"] "p" emptyState).processed = 0 ∧
    (parseJSONLFile parseOnlyV okOracle [bigLine 'x', "v"] "p" emptyState).parseFails = 0 ∧
    (parseJSONLFile parseOnlyV okOracle [bigLine 'x', "v"] "p" emptyState).state.messages = [] := by
  have habort : parseJSONLFile parseOnlyV okOracle [bigLine 'x', "v"] "p" emptyState =
      { state := emptyState, lineCount := 0, processed := 0, parseFails := 0,
        recordFails := 0, scanErr := true } :=
    parseLoop_too_long parseOnlyV okOracle "p" (bigLine 'x') ["v"] emptyState
      (by rw [bigLine_length]; decide)
  have hgt : goTrim (bigLine 'x') = bigLine 'x' :=
    goTrim_replicate_of_not_space _ 'x' (by decide)
  have hnev : ¬ (bigLine 'x' = "v") := bigLine_ne _ 'x' "v" (by decide)
  have hnee : ¬ (bigLine 'x' = "") := bigLine_ne _ 'x' "" (by decide)
  have hpv : parseOnlyV (bigLine 'x') = none := by
    unfold parseOnlyV
    rw [if_neg hnev]
  refine ⟨?_, by decide, by rw [habort], by rw [habort], by rw [habort]; rfl⟩
  unfold isMalformedLine
  rw [hgt, hpv, beq_eq_false_iff_ne.2 hnee]
  rfl

/-! ## C6: error isolation of the sync drivers -/

theorem syncProjectLogs_shift (parse : String → Option LogEntry)
    (oracle : LogEntry → FailPoint) (pn : String) :
    ∀ (files : List (Option (List String))) (s : State) (n : Nat),
    syncProjectLogs parse oracle pn files (s, n + 1) =
      ((syncProjectLogs parse oracle pn files (s, n)).1,
       (syncProjectLogs parse oracle pn files (s, n)).2 + 1) := by
  intro files
  induction files with
  | nil => intro s n; rfl
  | cons f files ih =>
    intro s n
    cases f with
    | none => exact ih s (n + 1)
    | some lines =>
      have hr : ∀ m : Nat, syncProjectLogs parse oracle pn (some lines :: files) (s, m) =
          syncProjectLogs parse oracle pn files
            ((parseJSONLFile parse oracle lines pn s).state,
             if (parseJSONLFile parse oracle lines pn s).scanErr then m + 1 else m) :=
        fun m => rfl
      rw [hr (n + 1), hr n]
      by_cases hsc : (parseJSONLFile parse oracle lines pn s).scanErr = true
      · rw [if_pos hsc, if_pos hsc]
        exact ih _ (n + 1)
      · rw [if_neg hsc, if_neg hsc]
        exact ih _ n

theorem syncProjectLogs_skip_none (parse : String → Option LogEntry)
    (oracle : LogEntry → FailPoint) (pn : String) (fs2 : List (Option (List String))) :
    ∀ (fs1 : List (Option (List String))) (s : State) (n : Nat),
    syncProjectLogs parse oracle pn (fs1 ++ none :: fs2) (s, n) =
      ((syncProjectLogs parse oracle pn (fs1 ++ fs2) (s, n)).1,
       (syncProjectLogs parse oracle pn (fs1 ++ fs2) (s, n)).2 + 1) := by
  intro fs1
  induction fs1 with
  | nil =>
    intro s n
    exact syncProjectLogs_shift parse oracle pn fs2 s n
  | cons f fs1 ih =>
    intro s n
    cases f with
    | none => exact ih s (n + 1)
    | some lines =>
      have hr : ∀ (rest : List (Option (List String))) (m : Nat),
          syncProjectLogs parse oracle pn (some lines :: rest) (s, m) =
          syncProjectLogs parse oracle pn rest
            ((parseJSONLFile parse oracle lines pn s).state,
             if (parseJSONLFile parse oracle lines pn s).scanErr then m + 1 else m) :=
        fun rest m => rfl
      rw [List.cons_append, List.cons_append, hr (fs1 ++ none :: fs2) n, hr (fs1 ++ fs2) n]
      by_cases hsc : (parseJSONLFile parse oracle lines pn s).scanErr = true
      · rw [if_pos hsc]
        exact ih _ (n + 1)
      · rw [if_neg hsc]
        exact ih _ n

/-- C6: error isolation during a sync run.  A missing source log directory
aborts the whole sync with a surfaced error, and so does an unreadable one;
an unreadable project file is logged (one more logged file error) and the
sync continues identically over the remaining files; a store failure on one
record (here: the message insert) is logged as a record failure and only
that line is lost — the remainder of the file is processed from the partial
store, which keeps the session upsert and window effects already
committed. -/
theorem c6_error_isolation :
    (∀ (parse : String → Option LogEntry) (oracle : LogEntry → FailPoint)
      (fs : FS) (s : State), fs.statOk = false →
      syncAllLogs parse oracle fs s = .error "claude projects directory not found") ∧
    (∀ (parse : String → Option LogEntry) (oracle : LogEntry → FailPoint)
      (fs : FS) (s : State), fs.statOk = true → fs.readDirOk = false →
      syncAllLogs parse oracle fs s = .error "failed to read claude projects directory") ∧
    (∀ (parse : String → Option LogEntry) (oracle : LogEntry → FailPoint)
      (pn : String) (fs1 fs2 : List (Option (List String))) (s : State) (n : Nat),
      syncProjectLogs parse oracle pn (fs1 ++ none :: fs2) (s, n) =
        ((syncProjectLogs parse oracle pn (fs1 ++ fs2) (s, n)).1,
         (syncProjectLogs parse oracle pn (fs1 ++ fs2) (s, n)).2 + 1)) ∧
    (∀ (parse : String → Option LogEntry) (oracle : LogEntry → FailPoint)
      (l pn : String) (ls : List String) (s : State) (e : LogEntry),
      l.length < maxCapacity → goTrim l ≠ "" → parse (goTrim l) = some e →
      oracle e = .insertFail →
      parseJSONLFile parse oracle (l :: ls) pn s =
        { (parseJSONLFile parse oracle ls pn (windowStepOf e pn s)) with
          lineCount := (parseJSONLFile parse oracle ls pn (windowStepOf e pn s)).lineCount + 1
          recordFails := (parseJSONLFile parse oracle ls pn (windowStepOf e pn s)).recordFails + 1 }) := by
  refine ⟨?_, ?_, ?_, ?_⟩
  · intro parse oracle fs s hstat
    simp [syncAllLogs, hstat]
  · intro parse oracle fs s hstat hread
    simp [syncAllLogs, hstat, hread]
  · intro parse oracle pn fs1 fs2 s n
    exact syncProjectLogs_skip_none parse oracle pn fs2 fs1 s n
  · intro parse oracle l pn ls s e hl ht hp horacle
    show parseLoop parse oracle pn (l :: ls) s = _
    conv_lhs => rw [parseLoop]
    rw [if_pos hl]
    dsimp only
    rw [if_neg ht, hp]
    dsimp only
    rw [horacle]
    rfl

/-- An oracle making the message-insert store write fail for every
record. -/
def insertFailOracle : LogEntry → FailPoint := fun _ => .insertFail

/-- The source layout whose stat call fails. -/
def fsNoDir : FS := { statOk := false, readDirOk := true, projects := [] }

/-- The source layout whose directory read fails. -/
def fsNoRead : FS := { statOk := true, readDirOk := false, projects := [] }

theorem c6_error_isolation_witness :
    (fsNoDir.statOk = false ∧
      syncAllLogs parseOnlyV okOracle fsNoDir emptyState =
        .error "claude projects directory not found") ∧
    (fsNoRead.statOk = true ∧ fsNoRead.readDirOk = false ∧
      syncAllLogs parseOnlyV okOracle fsNoRead emptyState =
        .error "failed to read claude projects directory") ∧
    syncProjectLogs parseOnlyV okOracle "p" [some ["v"], none] (emptyState, 0) =
      ((syncProjectLogs parseOnlyV okOracle "p" [some ["v"]] (emptyState, 0)).1,
       (syncProjectLogs parseOnlyV okOracle "p" [some ["v"]] (emptyState, 0)).2 + 1) ∧
    (parseOnlyV (goTrim "v") = some fixEntryNoCwd ∧
      parseJSONLFile parseOnlyV insertFailOracle ["v", "v"] "p" emptyState =
        { (parseJSONLFile parseOnlyV insertFailOracle ["v"] "p"
            (windowStepOf fixEntryNoCwd "p" emptyState)) with
          lineCount := (parseJSONLFile parseOnlyV insertFailOracle ["v"] "p"
            (windowStepOf fixEntryNoCwd "p" emptyState)).lineCount + 1
          recordFails := (parseJSONLFile parseOnlyV insertFailOracle ["v"] "p"
            (windowStepOf fixEntryNoCwd "p" emptyState)).recordFails + 1 }) := by
  refine ⟨⟨rfl, c6_error_isolation.1 parseOnlyV okOracle fsNoDir emptyState rfl⟩,
    ⟨rfl, rfl, c6_error_isolation.2.1 parseOnlyV okOracle fsNoRead emptyState rfl rfl⟩,
    ?_, by decide, ?_⟩
  · exact c6_error_isolation.2.2.1 parseOnlyV okOracle "p" [some ["v"]] [] emptyState 0
  · exact c6_error_isolation.2.2.2 parseOnlyV insertFailOracle "v" "p" ["v"] emptyState
      fixEntryNoCwd (by decide) (by decide) (by decide) rfl

/-! ## C2: window intervals -/

/-- Two windows' half-open `[start, stop)` spans do not overlap. -/
def windowsDisjoint (w1 w2 : Window) : Prop :=
  w1.stop ≤ w2.start ∨ w2.stop ≤ w1.start

instance : DecidableRel windowsDisjoint := fun w1 w2 =>
  inferInstanceAs (Decidable (w1.stop ≤ w2.start ∨ w2.stop ≤ w1.start))

@[simp] theorem applyWindowStats_start (ms : List Message) (wid : Nat) (w : Window) :
    (applyWindowStats ms wid w).start = w.start := by
  unfold applyWindowStats; split <;> rfl

@[simp] theorem applyWindowStats_stop (ms : List Message) (wid : Nat) (w : Window) :
    (applyWindowStats ms wid w).stop = w.stop := by
  unfold applyWindowStats; split <;> rfl

@[simp] theorem updateWindowStats_windows (wid : Nat) (s : State) :
    (updateWindowStats wid s).windows =
      s.windows.map (applyWindowStats (messagesInWindow s.messages wid) wid) := rfl

theorem deactivatePreceding_shape (ts : Nat) (ws : List Window) :
    ∃ g : Window → Window, deactivatePreceding ts ws = ws.map g ∧
      (∀ w, (g w).start = w.start ∧ (g w).stop = w.stop) ∧
      (∀ w, g w = w ∨ g w = { w with isActive := false }) := by
  cases hm : maxNat? ((ws.filter (fun w => w.isActive && w.stop ≤ ts)).map
      (fun w => w.stop)) with
  | none =>
    refine ⟨id, ?_, fun w => ⟨rfl, rfl⟩, fun w => Or.inl rfl⟩
    unfold deactivatePreceding
    rw [hm, List.map_id]
  | some m =>
    refine ⟨deactivateFlag ts m, ?_,
      fun w => ⟨by unfold deactivateFlag; split <;> rfl,
                by unfold deactivateFlag; split <;> rfl⟩,
      fun w => by
        unfold deactivateFlag
        split
        · exact Or.inr rfl
        · exact Or.inl rfl⟩
    unfold deactivatePreceding
    rw [hm]

/-- One ingestion step either keeps the window table pointwise (up to
span-preserving rewrites of flags and aggregates), or — exactly when no
stored window covers the entry's timestamp — appends one fresh
`[ts, ts + 5h)` window. -/
theorem processLogEntry_windows_shape (e : LogEntry) (pn : String) (s : State) :
    (∃ g : Window → Window, (∀ w, (g w).start = w.start ∧ (g w).stop = w.stop) ∧
      (findWindow s.windows e.timestamp).isSome = true ∧
      (processLogEntry e pn s).windows = s.windows.map g) ∨
    (∃ g : Window → Window, (∀ w, (g w).start = w.start ∧ (g w).stop = w.stop) ∧
      ∃ nw : Window, nw.start = e.timestamp ∧ nw.stop = e.timestamp + windowDuration ∧
        findWindow s.windows e.timestamp = none ∧
        (processLogEntry e pn s).windows = s.windows.map g ++ [nw]) := by
  unfold processLogEntry
  dsimp only
  have hs1w := createOrUpdateSession_windows e.sessionId (resolveProject e pn).1
    (resolveProject e pn).2 e.timestamp s
  cases hf : findWindow s.windows e.timestamp with
  | some w0 =>
    left
    have hget : getOrCreateWindowForMessage e.timestamp
        (createOrUpdateSession e.sessionId (resolveProject e pn).1
          (resolveProject e pn).2 e.timestamp s) =
        (w0, createOrUpdateSession e.sessionId (resolveProject e pn).1
          (resolveProject e pn).2 e.timestamp s) := by
      unfold getOrCreateWindowForMessage
      rw [hs1w, hf]
    rw [hget, updateSessionTokens_windows, updateWindowStats_windows,
      insertMessage_windows, hs1w]
    refine ⟨_, ?_, rfl, rfl⟩
    exact fun w => ⟨applyWindowStats_start .., applyWindowStats_stop ..⟩
  | none =>
    right
    obtain ⟨g0, hg0, hg0keys, _⟩ := deactivatePreceding_shape e.timestamp s.windows
    have hget : getOrCreateWindowForMessage e.timestamp
        (createOrUpdateSession e.sessionId (resolveProject e pn).1
          (resolveProject e pn).2 e.timestamp s) =
        (newWindow e.timestamp,
         { createOrUpdateSession e.sessionId (resolveProject e pn).1
             (resolveProject e pn).2 e.timestamp s with
           windows := deactivatePreceding e.timestamp s.windows ++ [newWindow e.timestamp] }) := by
      unfold getOrCreateWindowForMessage
      rw [hs1w, hf]
    rw [hget, updateSessionTokens_windows, updateWindowStats_windows,
      insertMessage_windows]
    dsimp only
    rw [hg0, List.map_append, List.map_map]
    refine ⟨_, ?_, _, ?_, ?_, rfl, rfl⟩
    · intro w
      constructor
      · show (applyWindowStats _ _ (g0 w)).start = w.start
        rw [applyWindowStats_start, (hg0keys w).1]
      · show (applyWindowStats _ _ (g0 w)).stop = w.stop
        rw [applyWindowStats_stop, (hg0keys w).2]
    · rw [applyWindowStats_start]
      rfl
    · rw [applyWindowStats_stop]
      rfl

theorem processCorpus_window_length (es : List (LogEntry × String)) :
    ∀ s : State, (∀ w ∈ s.windows, w.stop = w.start + windowDuration) →
    ∀ w ∈ (processCorpus es s).windows, w.stop = w.start + windowDuration := by
  induction es with
  | nil => exact fun s h => h
  | cons ep rest ih =>
    intro s h
    refine ih _ ?_
    intro w hw
    rcases processLogEntry_windows_shape ep.1 ep.2 s with ⟨g, hkeys, _, heq⟩ |
      ⟨g, hkeys, nw, hnw1, hnw2, _, heq⟩
    · rw [heq] at hw
      obtain ⟨b, hb, rfl⟩ := List.mem_map.1 hw
      rw [(hkeys b).1, (hkeys b).2]
      exact h b hb
    · rw [heq] at hw
      rcases List.mem_append.1 hw with hw1 | hw2
      · obtain ⟨b, hb, rfl⟩ := List.mem_map.1 hw1
        rw [(hkeys b).1, (hkeys b).2]
        exact h b hb
      · simp only [List.mem_singleton] at hw2
        subst hw2
        rw [hnw1, hnw2]

theorem processCorpus_disjoint (es : List (LogEntry × String)) :
    ∀ s : State,
    List.Pairwise (· ≤ ·) (es.map (fun ep => ep.1.timestamp)) →
    (∀ w ∈ s.windows, ∀ ep ∈ es, w.start ≤ ep.1.timestamp) →
    List.Pairwise windowsDisjoint s.windows →
    List.Pairwise windowsDisjoint (processCorpus es s).windows := by
  induction es with
  | nil => exact fun s _ _ hd => hd
  | cons ep rest ih =>
    intro s hsort hbound hd
    rw [List.map_cons, List.pairwise_cons] at hsort
    refine ih _ hsort.2 ?_ ?_
    · intro w hw ep' hep'
      rcases processLogEntry_windows_shape ep.1 ep.2 s with ⟨g, hkeys, _, heq⟩ |
        ⟨g, hkeys, nw, hnw1, _, _, heq⟩
      · rw [heq] at hw
        obtain ⟨b, hb, rfl⟩ := List.mem_map.1 hw
        rw [(hkeys b).1]
        exact hbound b hb ep' (List.mem_cons_of_mem _ hep')
      · rw [heq] at hw
        rcases List.mem_append.1 hw with hw1 | hw2
        · obtain ⟨b, hb, rfl⟩ := List.mem_map.1 hw1
          rw [(hkeys b).1]
          exact hbound b hb ep' (List.mem_cons_of_mem _ hep')
        · simp only [List.mem_singleton] at hw2
          subst hw2
          rw [hnw1]
          exact hsort.1 _ (List.mem_map_of_mem _ hep')
    · rcases processLogEntry_windows_shape ep.1 ep.2 s with ⟨g, hkeys, _, heq⟩ |
        ⟨g, hkeys, nw, hnw1, _, hfnone, heq⟩
      · rw [heq, List.pairwise_map]
        exact hd.imp (fun {a b} hab => by
          unfold windowsDisjoint at hab ⊢
          rw [(hkeys a).1, (hkeys a).2, (hkeys b).1, (hkeys b).2]
          exact hab)
      · rw [heq]
        rw [List.pairwise_append]
        refine ⟨?_, List.pairwise_singleton .., ?_⟩
        · rw [List.pairwise_map]
          exact hd.imp (fun {a b} hab => by
            unfold windowsDisjoint at hab ⊢
            rw [(hkeys a).1, (hkeys a).2, (hkeys b).1, (hkeys b).2]
            exact hab)
        · intro a ha b hb
          obtain ⟨c, hc, rfl⟩ := List.mem_map.1 ha
          simp only [List.mem_singleton] at hb
          subst hb
          left
          rw [(hkeys c).2, hnw1]
          have hnc := List.find?_eq_none.1 hfnone c hc
          have hcstart : c.start ≤ ep.1.timestamp :=
            hbound c hc ep (List.mem_cons_self _ _)
          unfold windowContains at hnc
          simp only [Bool.and_eq_true, decide_eq_true_eq, not_and] at hnc
          omega

/-- C2 (amended): every stored window's span is exactly the fixed 5-hour
length, after every ingestion step; and when log entries are ingested in
non-decreasing timestamp order, the stored windows' `[start, end)` intervals
are pairwise disjoint after every step.  (Out-of-order ingestion can create
an overlapping window — see the counterexample.) -/
theorem c2_window_intervals :
    (∀ (es : List (LogEntry × String)) (i : Nat),
      ∀ w ∈ (processCorpus (es.take i) emptyState).windows,
        w.stop = w.start + windowDuration) ∧
    (∀ es : List (LogEntry × String),
      List.Pairwise (· ≤ ·) (es.map (fun ep => ep.1.timestamp)) →
      ∀ i : Nat,
        List.Pairwise windowsDisjoint (processCorpus (es.take i) emptyState).windows) := by
  constructor
  · intro es i
    exact processCorpus_window_length (es.take i) emptyState (by intro w hw; cases hw)
  · intro es hsort i
    refine processCorpus_disjoint (es.take i) emptyState ?_ ?_ List.Pairwise.nil
    · rw [List.map_take]
      exact List.Pairwise.sublist (List.take_sublist _ _) hsort
    · intro w hw
      cases hw

/-- A log entry with no working directory, fresh uuid `u`, at timestamp
`ts`. -/
def fixEntryTs (u : String) (ts : Nat) : LogEntry :=
  { uuid := u, parentUuid := none, sessionId := "s1", cwd := "", timestamp := ts,
    isSidechain := false, userType := "external", requestId := none,
    message := fixBody }

/-- Two entries arriving out of timestamp order. -/
def outOfOrderCorpus : List (LogEntry × String) :=
  [(fixEntryTs "w1" 18000, "p"), (fixEntryTs "w2" 10000, "p")]

/-- C2 counterexample: ingesting timestamps 18000 then 10000 from an empty
store creates the windows `[18000, 36000)` and `[10000, 28000)`, which
overlap. -/
theorem c2_counterexample :
    (processCorpus outOfOrderCorpus emptyState).windows.map Window.start =
      [18000, 10000] ∧
    ¬ List.Pairwise windowsDisjoint (processCorpus outOfOrderCorpus emptyState).windows := by
  constructor
  · decide
  · decide

/-- Two entries in non-decreasing timestamp order. -/
def sortedCorpus : List (LogEntry × String) :=
  [(fixEntryTs "w1" 1000, "p"), (fixEntryTs "w2" 25000, "p")]

theorem c2_window_intervals_witness :
    List.Pairwise (· ≤ ·) (sortedCorpus.map (fun ep => ep.1.timestamp)) ∧
    List.Pairwise windowsDisjoint (processCorpus (sortedCorpus.take 2) emptyState).windows ∧
    ∀ w ∈ (processCorpus (sortedCorpus.take 2) emptyState).windows,
      w.stop = w.start + windowDuration :=
  ⟨by decide, c2_window_intervals.2 sortedCorpus (by decide) 2,
    c2_window_intervals.1 sortedCorpus 2⟩

/-! ## C1: idempotence of resync -/

/-- A window row is consistent when its stored aggregates equal the
re-summed aggregates over the messages currently assigned to it. -/
def windowStatsOk (msgs : List Message) (w : Window) : Prop :=
  w.totalInputTokens = sumInput (messagesInWindow msgs w.start) ∧
  w.totalOutputTokens = sumOutput (messagesInWindow msgs w.start) ∧
  w.totalTokens = sumTokens (messagesInWindow msgs w.start) ∧
  w.messageCount = (messagesInWindow msgs w.start).length ∧
  w.sessionCount = ((messagesInWindow msgs w.start).map Message.sessionId).dedup.length

/-- A session row is consistent when its stored counters equal the
re-summed counters over the messages currently belonging to it. -/
def sessionStatsOk (msgs : List Message) (ss : Session) : Prop :=
  ss.totalInputTokens = sumInput (messagesInSession msgs ss.id) ∧
  ss.totalOutputTokens = sumOutput (messagesInSession msgs ss.id) ∧
  ss.totalTokens = sumTokens (messagesInSession msgs ss.id) ∧
  ss.messageCount = (messagesInSession msgs ss.id).length

theorem map_id_of_mem {α : Type} (l : List α) (f : α → α) (h : ∀ a ∈ l, f a = a) :
    l.map f = l := by
  rw [List.map_congr_left h]
  exact List.map_id' l

@[simp] theorem applySessionEnd_id (sid : String) (ts : Nat) (ss : Session) :
    (applySessionEnd sid ts ss).id = ss.id := by
  unfold applySessionEnd; split <;> rfl

@[simp] theorem applySessionStats_id (ms : List Message) (sid : String) (ss : Session) :
    (applySessionStats ms sid ss).id = ss.id := by
  unfold applySessionStats; split <;> rfl

@[simp] theorem applySessionStats_endTime (ms : List Message) (sid : String) (ss : Session) :
    (applySessionStats ms sid ss).endTime = ss.endTime := by
  unfold applySessionStats; split <;> rfl

theorem deactivateFlag_shape (ts m : Nat) (w : Window) :
    deactivateFlag ts m w = w ∨ deactivateFlag ts m w = { w with isActive := false } := by
  unfold deactivateFlag
  split
  · exact Or.inr rfl
  · exact Or.inl rfl

@[simp] theorem updateSessionTokens_sessions_eq (sid : String) (s : State) :
    (updateSessionTokens sid s).sessions =
      s.sessions.map (applySessionStats (messagesInSession s.messages sid) sid) := rfl

theorem buildMessage_windowId (e : LogEntry) (wid : Nat) :
    (buildMessage e wid).sessionWindowId = wid := rfl

theorem buildMessage_sessionId (e : LogEntry) (wid : Nat) :
    (buildMessage e wid).sessionId = e.sessionId := rfl

theorem messagesInWindow_append_ne (msgs : List Message) (m : Message) (wid : Nat)
    (h : ¬ m.sessionWindowId = wid) :
    messagesInWindow (msgs ++ [m]) wid = messagesInWindow msgs wid := by
  unfold messagesInWindow
  rw [List.filter_append]
  have : List.filter (fun x => x.sessionWindowId == wid) [m] = [] := by
    simp [h]
  rw [this, List.append_nil]

theorem messagesInSession_append_ne (msgs : List Message) (m : Message) (sid : String)
    (h : ¬ m.sessionId = sid) :
    messagesInSession (msgs ++ [m]) sid = messagesInSession msgs sid := by
  unfold messagesInSession
  rw [List.filter_append]
  have : List.filter (fun x => x.sessionId == sid) [m] = [] := by
    simp [h]
  rw [this, List.append_nil]

theorem windowStatsOk_append_ne (msgs : List Message) (m : Message) (w : Window)
    (h : ¬ m.sessionWindowId = w.start) (hok : windowStatsOk msgs w) :
    windowStatsOk (msgs ++ [m]) w := by
  unfold windowStatsOk at hok ⊢
  rw [messagesInWindow_append_ne msgs m w.start h]
  exact hok

theorem sessionStatsOk_append_ne (msgs : List Message) (m : Message) (ss : Session)
    (h : ¬ m.sessionId = ss.id) (hok : sessionStatsOk msgs ss) :
    sessionStatsOk (msgs ++ [m]) ss := by
  unfold sessionStatsOk at hok ⊢
  rw [messagesInSession_append_ne msgs m ss.id h]
  exact hok

theorem applyWindowStats_ok (msgs : List Message) (wid : Nat) (b : Window)
    (hb : (b.start == wid) = true) :
    windowStatsOk msgs (applyWindowStats (messagesInWindow msgs wid) wid b) := by
  have hstart : b.start = wid := by simpa using hb
  unfold applyWindowStats
  rw [if_pos hb]
  unfold windowStatsOk
  dsimp only
  rw [hstart]
  exact ⟨rfl, rfl, rfl, rfl, rfl⟩

theorem applySessionStats_ok (msgs : List Message) (sid : String) (b : Session)
    (hb : (b.id == sid) = true) :
    sessionStatsOk msgs (applySessionStats (messagesInSession msgs sid) sid b) := by
  have hid : b.id = sid := by simpa using hb
  unfold applySessionStats
  rw [if_pos hb]
  unfold sessionStatsOk
  dsimp only
  rw [hid]
  exact ⟨rfl, rfl, rfl, rfl⟩

theorem findWindow_map_keys (ws : List Window) (ts : Nat) (g : Window → Window)
    (hg : ∀ w, (g w).start = w.start ∧ (g w).stop = w.stop) :
    findWindow (ws.map g) ts = (findWindow ws ts).map g := by
  unfold findWindow
  rw [List.find?_map]
  have : ((fun w => windowContains w ts) ∘ g) = (fun w => windowContains w ts) := by
    funext w
    show windowContains (g w) ts = windowContains w ts
    unfold windowContains
    rw [(hg w).1, (hg w).2]
  rw [this]

theorem wstart?_map_keys (ws : List Window) (ts : Nat) (g : Window → Window)
    (hg : ∀ w, (g w).start = w.start ∧ (g w).stop = w.stop) :
    (findWindow (ws.map g) ts).map Window.start = (findWindow ws ts).map Window.start := by
  rw [findWindow_map_keys ws ts g hg]
  cases findWindow ws ts with
  | none => rfl
  | some w =>
    show some (g w).start = some w.start
    rw [(hg w).1]

theorem findWindow_append (ws ws₂ : List Window) (ts : Nat) :
    findWindow (ws ++ ws₂) ts = (findWindow ws ts).or (findWindow ws₂ ts) := by
  unfold findWindow
  exact List.find?_append ..

theorem createOrUpdateSession_fixpoint (sid n p : String) (ts : Nat) (s : State)
    (hex : ∃ ss ∈ s.sessions, ss.id = sid)
    (hend : ∀ ss ∈ s.sessions, ss.id = sid → ts ≤ ss.endTime) :
    createOrUpdateSession sid n p ts s = s := by
  have hany : (s.sessions.any (fun ss => ss.id == sid)) = true := by
    obtain ⟨ss, hss, hid⟩ := hex
    exact List.any_eq_true.2 ⟨ss, hss, by simp [hid]⟩
  unfold createOrUpdateSession
  rw [if_pos hany]
  have hmap : s.sessions.map (applySessionEnd sid ts) = s.sessions := by
    apply map_id_of_mem
    intro ss hss
    unfold applySessionEnd
    by_cases hid : (ss.id == sid) = true
    · rw [if_pos hid, max_eq_left (hend ss hss (by simpa using hid))]
    · rw [if_neg hid]
  rw [hmap]

theorem insertMessage_fixpoint (m : Message) (s : State)
    (hex : ∃ old ∈ s.messages, old.id = m.id)
    (hall : ∀ old ∈ s.messages, old.id = m.id → old = m) :
    insertMessage m s = s := by
  have hany : (s.messages.any (fun old => old.id == m.id)) = true := by
    obtain ⟨old, hm, hid⟩ := hex
    exact List.any_eq_true.2 ⟨old, hm, by simp [hid]⟩
  unfold insertMessage
  rw [if_pos hany]
  have hmap : s.messages.map (fun old => if old.id == m.id then m else old) =
      s.messages := by
    apply map_id_of_mem
    intro old hold
    by_cases hid : (old.id == m.id) = true
    · rw [if_pos hid, hall old hold (by simpa using hid)]
    · rw [if_neg hid]
  rw [hmap]

theorem updateWindowStats_fixpoint (wid : Nat) (s : State)
    (h : ∀ w ∈ s.windows, w.start = wid → windowStatsOk s.messages w) :
    updateWindowStats wid s = s := by
  unfold updateWindowStats
  have hmap : s.windows.map (applyWindowStats (messagesInWindow s.messages wid) wid) =
      s.windows := by
    apply map_id_of_mem
    intro w hw
    unfold applyWindowStats
    by_cases hs : (w.start == wid) = true
    · rw [if_pos hs]
      have hst : w.start = wid := by simpa using hs
      obtain ⟨h1, h2, h3, h4, h5⟩ := h w hw hst
      rw [← hst, ← h1, ← h2, ← h3, ← h4, ← h5]
    · rw [if_neg hs]
  rw [hmap]

theorem updateSessionTokens_fixpoint (sid : String) (s : State)
    (h : ∀ ss ∈ s.sessions, ss.id = sid → sessionStatsOk s.messages ss) :
    updateSessionTokens sid s = s := by
  unfold updateSessionTokens
  have hmap : s.sessions.map (applySessionStats (messagesInSession s.messages sid) sid) =
      s.sessions := by
    apply map_id_of_mem
    intro ss hss
    unfold applySessionStats
    by_cases hid : (ss.id == sid) = true
    · rw [if_pos hid]
      have hsid : ss.id = sid := by simpa using hid
      obtain ⟨h1, h2, h3, h4⟩ := h ss hss hsid
      rw [← hsid, ← h1, ← h2, ← h3, ← h4]
    · rw [if_neg hid]
  rw [hmap]

/-- Replaying one corpus entry over a store that already reflects it — the
session exists with covering last activity, a stored window covers the
timestamp, the message row is stored with identical content, and all
aggregates are consistent — changes nothing. -/
theorem processLogEntry_fixpoint (e : LogEntry) (pn : String) (s : State)
    (hex : ∃ ss ∈ s.sessions, ss.id = e.sessionId)
    (hend : ∀ ss ∈ s.sessions, ss.id = e.sessionId → e.timestamp ≤ ss.endTime)
    (hwin : ∃ wst, (findWindow s.windows e.timestamp).map Window.start = some wst ∧
      (∃ m ∈ s.messages, m.id = e.uuid) ∧
      (∀ m ∈ s.messages, m.id = e.uuid → m = buildMessage e wst))
    (hwok : ∀ w ∈ s.windows, windowStatsOk s.messages w)
    (hsok : ∀ ss ∈ s.sessions, sessionStatsOk s.messages ss) :
    processLogEntry e pn s = s := by
  obtain ⟨wst, hmapw, hexm, hallm⟩ := hwin
  obtain ⟨w0, hf, hw0st⟩ := Option.map_eq_some'.1 hmapw
  unfold processLogEntry
  dsimp only
  rw [createOrUpdateSession_fixpoint e.sessionId _ _ e.timestamp s hex hend]
  have hget : getOrCreateWindowForMessage e.timestamp s = (w0, s) := by
    unfold getOrCreateWindowForMessage
    rw [hf]
  rw [hget]
  dsimp only
  rw [hw0st]
  rw [insertMessage_fixpoint (buildMessage e wst) s hexm
    (fun old hold hid => hallm old hold hid)]
  rw [updateWindowStats_fixpoint wst s (fun w hw _ => hwok w hw)]
  rw [updateSessionTokens_fixpoint e.sessionId s (fun ss hss _ => hsok ss hss)]

@[simp] theorem newSession_id (sid n p : String) (ts : Nat) :
    (newSession sid n p ts).id = sid := rfl

@[simp] theorem newSession_endTime (sid n p : String) (ts : Nat) :
    (newSession sid n p ts).endTime = ts := rfl

theorem applySessionEnd_endTime_ge (sid : String) (ts : Nat) (ss : Session) :
    ss.endTime ≤ (applySessionEnd sid ts ss).endTime := by
  unfold applySessionEnd
  split
  · exact le_max_left ..
  · exact le_refl ..

theorem applySessionEnd_endTime_self (sid : String) (ts : Nat) (ss : Session)
    (h : ss.id = sid) : ts ≤ (applySessionEnd sid ts ss).endTime := by
  unfold applySessionEnd
  rw [if_pos (by simp [h])]
  exact le_max_right ..

theorem applySessionEnd_of_ne (sid : String) (ts : Nat) (ss : Session)
    (h : ¬ (ss.id == sid) = true) : applySessionEnd sid ts ss = ss := by
  unfold applySessionEnd
  rw [if_neg h]

theorem applySessionStats_of_ne (ms : List Message) (sid : String) (ss : Session)
    (h : ¬ (ss.id == sid) = true) : applySessionStats ms sid ss = ss := by
  unfold applySessionStats
  rw [if_neg h]

theorem applyWindowStats_of_ne (ms : List Message) (wid : Nat) (w : Window)
    (h : ¬ (w.start == wid) = true) : applyWindowStats ms wid w = w := by
  unfold applyWindowStats
  rw [if_neg h]

theorem processLogEntry_sessions_eq (e : LogEntry) (pn : String) (s : State) :
    (processLogEntry e pn s).sessions =
      (sessionUpsertOf e pn s).sessions.map
        (applySessionStats (messagesInSession
          (insertMessage (buildMessage e (assignedWindowStart e pn s))
            (windowStepOf e pn s)).messages e.sessionId) e.sessionId) := by
  have h1 : (processLogEntry e pn s).sessions =
      ((insertMessage (buildMessage e (assignedWindowStart e pn s))
        (windowStepOf e pn s)).sessions).map
        (applySessionStats (messagesInSession
          (insertMessage (buildMessage e (assignedWindowStart e pn s))
            (windowStepOf e pn s)).messages e.sessionId) e.sessionId) := rfl
  rw [h1, insertMessage_sessions]
  have h2 : (windowStepOf e pn s).sessions = (sessionUpsertOf e pn s).sessions :=
    getOrCreateWindowForMessage_sessions ..
  rw [h2]

theorem processLogEntry_windows_eq (e : LogEntry) (pn : String) (s : State) :
    (processLogEntry e pn s).windows =
      (windowStepOf e pn s).windows.map
        (applyWindowStats (messagesInWindow
          (insertMessage (buildMessage e (assignedWindowStart e pn s))
            (windowStepOf e pn s)).messages (assignedWindowStart e pn s))
          (assignedWindowStart e pn s)) := by
  have h1 : (processLogEntry e pn s).windows =
      ((insertMessage (buildMessage e (assignedWindowStart e pn s))
        (windowStepOf e pn s)).windows).map
        (applyWindowStats (messagesInWindow
          (insertMessage (buildMessage e (assignedWindowStart e pn s))
            (windowStepOf e pn s)).messages (assignedWindowStart e pn s))
          (assignedWindowStart e pn s)) := rfl
  rw [h1, insertMessage_windows]

theorem windowStepOf_messages (e : LogEntry) (pn : String) (s : State) :
    (windowStepOf e pn s).messages = s.messages := by
  unfold windowStepOf
  rw [getOrCreateWindowForMessage_messages]
  unfold sessionUpsertOf
  rw [createOrUpdateSession_messages]

theorem insert_step_messages_fresh (e : LogEntry) (pn : String) (s : State)
    (h : ¬ e.uuid ∈ s.messages.map Message.id) :
    (insertMessage (buildMessage e (assignedWindowStart e pn s))
      (windowStepOf e pn s)).messages =
      s.messages ++ [buildMessage e (assignedWindowStart e pn s)] := by
  have h2 : (insertMessage (buildMessage e (assignedWindowStart e pn s))
      (windowStepOf e pn s)).messages = (processLogEntry e pn s).messages := rfl
  rw [h2, processLogEntry_messages_fresh e pn s h]

theorem sessionUpsertOf_sessions (e : LogEntry) (pn : String) (s : State) :
    ((s.sessions.any (fun ss => ss.id == e.sessionId)) = true ∧
      (sessionUpsertOf e pn s).sessions =
        s.sessions.map (applySessionEnd e.sessionId e.timestamp)) ∨
    ((s.sessions.any (fun ss => ss.id == e.sessionId)) = false ∧
      (sessionUpsertOf e pn s).sessions = s.sessions ++
        [newSession e.sessionId (resolveProject e pn).1 (resolveProject e pn).2
          e.timestamp]) := by
  unfold sessionUpsertOf createOrUpdateSession
  by_cases h : (s.sessions.any (fun ss => ss.id == e.sessionId)) = true
  · left
    exact ⟨h, by rw [if_pos h]⟩
  · right
    exact ⟨by simpa using h, by rw [if_neg h]⟩

theorem windowStepOf_windows (e : LogEntry) (pn : String) (s : State) :
    ((findWindow s.windows e.timestamp).isSome = true ∧
      (windowStepOf e pn s).windows = s.windows) ∨
    (findWindow s.windows e.timestamp = none ∧
      (windowStepOf e pn s).windows =
        deactivatePreceding e.timestamp s.windows ++ [newWindow e.timestamp]) := by
  have hs1 : (sessionUpsertOf e pn s).windows = s.windows := by
    unfold sessionUpsertOf
    exact createOrUpdateSession_windows ..
  unfold windowStepOf getOrCreateWindowForMessage
  rw [hs1]
  cases hf : findWindow s.windows e.timestamp with
  | some w =>
    left
    refine ⟨rfl, ?_⟩
    show (sessionUpsertOf e pn s).windows = s.windows
    exact hs1
  | none => exact Or.inr ⟨rfl, rfl⟩

theorem assignedWindowStart_found (e : LogEntry) (pn : String) (s : State) (w0 : Window)
    (hf : findWindow s.windows e.timestamp = some w0) :
    assignedWindowStart e pn s = w0.start := by
  unfold assignedWindowStart getOrCreateWindowForMessage
  rw [createOrUpdateSession_windows, hf]

theorem assignedWindowStart_none (e : LogEntry) (pn : String) (s : State)
    (hf : findWindow s.windows e.timestamp = none) :
    assignedWindowStart e pn s = e.timestamp := by
  unfold assignedWindowStart getOrCreateWindowForMessage
  rw [createOrUpdateSession_windows, hf]
  rfl

/-- A stored window's start, looked up for `ts'`, is stable under one
ingestion step. -/
theorem wstart?_after_step (e : LogEntry) (pn : String) (s : State) (ts' wst : Nat)
    (h : (findWindow s.windows ts').map Window.start = some wst) :
    (findWindow (processLogEntry e pn s).windows ts').map Window.start = some wst := by
  rcases processLogEntry_windows_shape e pn s with ⟨g, hkeys, _, heq⟩ |
    ⟨g, hkeys, nw, _, _, _, heq⟩
  · rw [heq, wstart?_map_keys _ _ g hkeys, h]
  · rw [heq]
    obtain ⟨w0, hf0, hw0⟩ := Option.map_eq_some'.1 h
    rw [findWindow_append, findWindow_map_keys _ _ g hkeys, hf0]
    show some (g w0).start = some wst
    rw [(hkeys w0).1, hw0]

/-- After one ingestion step, some stored window covers the step's own
timestamp, and its start is the assigned window id. -/
theorem findWindow_after_step_self (e : LogEntry) (pn : String) (s : State) :
    (findWindow (processLogEntry e pn s).windows e.timestamp).map Window.start =
      some (assignedWindowStart e pn s) := by
  cases hf : findWindow s.windows e.timestamp with
  | some w0 =>
    rw [assignedWindowStart_found e pn s w0 hf]
    exact wstart?_after_step e pn s e.timestamp w0.start (by rw [hf]; rfl)
  | none =>
    rcases processLogEntry_windows_shape e pn s with ⟨g, hkeys, hsome, heq⟩ |
      ⟨g, hkeys, nw, hnw1, hnw2, _, heq⟩
    · rw [hf] at hsome
      cases hsome
    · rw [assignedWindowStart_none e pn s hf, heq, findWindow_append,
        findWindow_map_keys _ _ g hkeys, hf]
      have hc : windowContains nw e.timestamp = true := by
        unfold windowContains
        rw [hnw1, hnw2]
        simp [windowDuration]
      have hsingle : findWindow [nw] e.timestamp = some nw := by
        simp [findWindow, hc]
      rw [hsingle]
      show some nw.start = _
      rw [hnw1]

/-- Inductive invariant relating the store to the already-ingested corpus
prefix: every processed entry has its session row (with covering last
activity), a stored window covering its timestamp, and its message row with
exactly the content a re-ingestion would write; all window and session
aggregates are consistent with the message table; and every message row came
from the corpus. -/
structure Inv (corpus : List (LogEntry × String)) (s : State) : Prop where
  sessionExists : ∀ ep ∈ corpus, ∃ ss ∈ s.sessions, ss.id = ep.1.sessionId
  sessionEnd : ∀ ep ∈ corpus, ∀ ss ∈ s.sessions, ss.id = ep.1.sessionId →
    ep.1.timestamp ≤ ss.endTime
  msgBound : ∀ ep ∈ corpus, ∃ wst,
    (findWindow s.windows ep.1.timestamp).map Window.start = some wst ∧
    (∃ m ∈ s.messages, m.id = ep.1.uuid) ∧
    (∀ m ∈ s.messages, m.id = ep.1.uuid → m = buildMessage ep.1 wst)
  winOk : ∀ w ∈ s.windows, windowStatsOk s.messages w
  sessOk : ∀ ss ∈ s.sessions, sessionStatsOk s.messages ss
  msgFromCorpus : ∀ m ∈ s.messages, ∃ ep ∈ corpus, ep.1.uuid = m.id

/-- Ingesting a fresh entry preserves the invariant, extending the covered
corpus by that entry. -/
theorem Inv.step {corpus : List (LogEntry × String)} {s : State} (e : LogEntry)
    (pn : String) (inv : Inv corpus s)
    (hfresh : ∀ ep ∈ corpus, ep.1.uuid ≠ e.uuid) :
    Inv (corpus ++ [(e, pn)]) (processLogEntry e pn s) := by
  have hfreshmsg : ¬ e.uuid ∈ s.messages.map Message.id := by
    intro hmem
    obtain ⟨m, hm, hmid⟩ := List.mem_map.1 hmem
    obtain ⟨ep, hep, hepid⟩ := inv.msgFromCorpus m hm
    exact hfresh ep hep (by rw [hepid, hmid])
  have hmsgs := processLogEntry_messages_fresh e pn s hfreshmsg
  have hsessEq := processLogEntry_sessions_eq e pn s
  rw [insert_step_messages_fresh e pn s hfreshmsg] at hsessEq
  have hwinEq := processLogEntry_windows_eq e pn s
  rw [insert_step_messages_fresh e pn s hfreshmsg] at hwinEq
  have hbase : ∃ base : List Session,
      (sessionUpsertOf e pn s).sessions = base ∧
      (∀ c ∈ s.sessions, ∃ b ∈ base, b.id = c.id) ∧
      (∃ b ∈ base, b.id = e.sessionId) ∧
      (∀ ep' ∈ corpus, ∀ b ∈ base, b.id = ep'.1.sessionId →
        ep'.1.timestamp ≤ b.endTime) ∧
      (∀ b ∈ base, b.id = e.sessionId → e.timestamp ≤ b.endTime) ∧
      (∀ b ∈ base, ¬ b.id = e.sessionId → sessionStatsOk s.messages b) := by
    rcases sessionUpsertOf_sessions e pn s with ⟨hany, hb⟩ | ⟨hany, hb⟩
    · refine ⟨_, hb, ?_, ?_, ?_, ?_, ?_⟩
      · intro c hc
        exact ⟨applySessionEnd e.sessionId e.timestamp c,
          List.mem_map_of_mem _ hc, applySessionEnd_id ..⟩
      · obtain ⟨c, hc, hcid⟩ := List.any_eq_true.1 hany
        refine ⟨applySessionEnd e.sessionId e.timestamp c,
          List.mem_map_of_mem _ hc, ?_⟩
        rw [applySessionEnd_id]
        simpa using hcid
      · intro ep' hep' b hbmem hbid
        obtain ⟨c, hc, rfl⟩ := List.mem_map.1 hbmem
        rw [applySessionEnd_id] at hbid
        exact le_trans (inv.sessionEnd ep' hep' c hc hbid)
          (applySessionEnd_endTime_ge ..)
      · intro b hbmem hbid
        obtain ⟨c, hc, rfl⟩ := List.mem_map.1 hbmem
        rw [applySessionEnd_id] at hbid
        exact applySessionEnd_endTime_self _ _ c hbid
      · intro b hbmem hbid
        obtain ⟨c, hc, rfl⟩ := List.mem_map.1 hbmem
        rw [applySessionEnd_id] at hbid
        rw [applySessionEnd_of_ne _ _ c (by simpa using hbid)]
        exact inv.sessOk c hc
    · have hnone : ∀ c ∈ s.sessions, ¬ c.id = e.sessionId := by
        intro c hc hcid
        have hx : (s.sessions.any (fun ss => ss.id == e.sessionId)) = true :=
          List.any_eq_true.2 ⟨c, hc, by simp [hcid]⟩
        rw [hany] at hx
        cases hx
      refine ⟨_, hb, ?_, ?_, ?_, ?_, ?_⟩
      · intro c hc
        exact ⟨c, List.mem_append_left _ hc, rfl⟩
      · exact ⟨newSession e.sessionId (resolveProject e pn).1
          (resolveProject e pn).2 e.timestamp,
          List.mem_append_right _ (List.mem_singleton.2 rfl), newSession_id ..⟩
      · intro ep' hep' b hbmem hbid
        rcases List.mem_append.1 hbmem with hbold | hbnew
        · exact inv.sessionEnd ep' hep' b hbold hbid
        · obtain rfl := List.mem_singleton.1 hbnew
          rw [newSession_id] at hbid
          obtain ⟨c, hc, hcid⟩ := inv.sessionExists ep' hep'
          exact absurd (by rw [hcid, ← hbid]) (hnone c hc)
      · intro b hbmem hbid
        rcases List.mem_append.1 hbmem with hbold | hbnew
        · exact absurd hbid (hnone b hbold)
        · obtain rfl := List.mem_singleton.1 hbnew
          rw [newSession_endTime]
      · intro b hbmem hbid
        rcases List.mem_append.1 hbmem with hbold | hbnew
        · exact inv.sessOk b hbold
        · obtain rfl := List.mem_singleton.1 hbnew
          exact absurd (newSession_id ..) hbid
  obtain ⟨base, hbEq, hbSurj, hbNew, hbEndOld, hbEndNew, hbUntouched⟩ := hbase
  rw [hbEq] at hsessEq
  refine ⟨?_, ?_, ?_, ?_, ?_, ?_⟩
  · intro ep hep
    rcases List.mem_append.1 hep with hold | hnew
    · obtain ⟨c, hc, hcid⟩ := inv.sessionExists ep hold
      obtain ⟨b, hbm, hbid⟩ := hbSurj c hc
      have hmem : applySessionStats
          (messagesInSession (s.messages ++ [buildMessage e (assignedWindowStart e pn s)])
            e.sessionId) e.sessionId b ∈ (processLogEntry e pn s).sessions := by
        rw [hsessEq]
        exact List.mem_map_of_mem _ hbm
      exact ⟨_, hmem, by rw [applySessionStats_id, hbid, hcid]⟩
    · obtain rfl := List.mem_singleton.1 hnew
      obtain ⟨b, hbm, hbid⟩ := hbNew
      have hmem : applySessionStats
          (messagesInSession (s.messages ++ [buildMessage e (assignedWindowStart e pn s)])
            e.sessionId) e.sessionId b ∈ (processLogEntry e pn s).sessions := by
        rw [hsessEq]
        exact List.mem_map_of_mem _ hbm
      exact ⟨_, hmem, by rw [applySessionStats_id, hbid]⟩
  · intro ep hep r hr hrid
    rw [hsessEq] at hr
    obtain ⟨b, hbm, rfl⟩ := List.mem_map.1 hr
    rw [applySessionStats_id] at hrid
    rw [applySessionStats_endTime]
    rcases List.mem_append.1 hep with hold | hnew
    · exact hbEndOld ep hold b hbm hrid
    · obtain rfl := List.mem_singleton.1 hnew
      exact hbEndNew b hbm hrid
  · intro ep hep
    rcases List.mem_append.1 hep with hold | hnew
    · obtain ⟨wst, hfind, hexm, hallm⟩ := inv.msgBound ep hold
      refine ⟨wst, wstart?_after_step e pn s _ wst hfind, ?_, ?_⟩
      · obtain ⟨m, hm, hmid⟩ := hexm
        exact ⟨m, by rw [hmsgs]; exact List.mem_append_left _ hm, hmid⟩
      · intro m hm hmid
        rw [hmsgs] at hm
        rcases List.mem_append.1 hm with hmold | hmnew
        · exact hallm m hmold hmid
        · obtain rfl := List.mem_singleton.1 hmnew
          exact absurd (hmid.symm.trans (buildMessage_id ..)) (hfresh ep hold)
    · obtain rfl := List.mem_singleton.1 hnew
      refine ⟨assignedWindowStart e pn s, findWindow_after_step_self e pn s, ?_, ?_⟩
      · exact ⟨buildMessage e (assignedWindowStart e pn s),
          by rw [hmsgs]; exact List.mem_append_right _ (List.mem_singleton.2 rfl),
          buildMessage_id ..⟩
      · intro m hm hmid
        rw [hmsgs] at hm
        rcases List.mem_append.1 hm with hmold | hmnew
        · refine absurd ?_ hfreshmsg
          rw [← hmid]
          exact List.mem_map_of_mem _ hmold
        · exact List.mem_singleton.1 hmnew
  · intro r hr
    rw [hmsgs]
    rw [hwinEq] at hr
    obtain ⟨b, hbm, rfl⟩ := List.mem_map.1 hr
    by_cases hbW : (b.start == assignedWindowStart e pn s) = true
    · exact applyWindowStats_ok _ _ b hbW
    · rw [applyWindowStats_of_ne _ _ b hbW]
      have hbne : ¬ (buildMessage e (assignedWindowStart e pn s)).sessionWindowId =
          b.start := by
        rw [buildMessage_windowId]
        intro hx
        exact hbW (by rw [← hx]; exact beq_self_eq_true _)
      refine windowStatsOk_append_ne _ _ b hbne ?_
      rcases windowStepOf_windows e pn s with ⟨_, hwEq2⟩ | ⟨hfnone, hwEq2⟩
      · rw [hwEq2] at hbm
        exact inv.winOk b hbm
      · rw [hwEq2] at hbm
        rcases List.mem_append.1 hbm with hbd | hbn
        · obtain ⟨g0, hg0, hg0keys, hg0shape⟩ :=
            deactivatePreceding_shape e.timestamp s.windows
          rw [hg0] at hbd
          obtain ⟨c, hc, rfl⟩ := List.mem_map.1 hbd
          rcases hg0shape c with hgc | hgc
          · rw [hgc]
            exact inv.winOk c hc
          · rw [hgc]
            exact inv.winOk c hc
        · obtain rfl := List.mem_singleton.1 hbn
          rw [assignedWindowStart_none e pn s hfnone] at hbW
          exact absurd (beq_self_eq_true e.timestamp) hbW
  · intro r hr
    rw [hmsgs]
    rw [hsessEq] at hr
    obtain ⟨b, hbm, rfl⟩ := List.mem_map.1 hr
    by_cases hbid : (b.id == e.sessionId) = true
    · exact applySessionStats_ok _ _ b hbid
    · rw [applySessionStats_of_ne _ _ b hbid]
      have hbne : ¬ (buildMessage e (assignedWindowStart e pn s)).sessionId = b.id := by
        rw [buildMessage_sessionId]
        intro hx
        exact hbid (by rw [← hx]; exact beq_self_eq_true _)
      refine sessionStatsOk_append_ne _ _ b hbne (hbUntouched b hbm ?_)
      intro hx
      exact hbid (by rw [hx]; exact beq_self_eq_true _)
  · intro m hm
    rw [hmsgs] at hm
    rcases List.mem_append.1 hm with hmold | hmnew
    · obtain ⟨ep, hep, hepid⟩ := inv.msgFromCorpus m hmold
      exact ⟨ep, List.mem_append_left _ hep, hepid⟩
    · obtain rfl := List.mem_singleton.1 hmnew
      exact ⟨(e, pn), List.mem_append_right _ (List.mem_singleton.2 rfl),
        (buildMessage_id ..).symm⟩

/-- The empty store satisfies the invariant of the empty corpus. -/
theorem Inv_empty : Inv [] emptyState :=
  ⟨fun _ h => absurd h (List.not_mem_nil _),
   fun _ h => absurd h (List.not_mem_nil _),
   fun _ h => absurd h (List.not_mem_nil _),
   fun _ h => absurd h (List.not_mem_nil _),
   fun _ h => absurd h (List.not_mem_nil _),
   fun _ h => absurd h (List.not_mem_nil _)⟩

/-- Folding a whole corpus of pairwise-fresh entries over an invariant store
yields an invariant store covering the extended corpus. -/
theorem Inv_processCorpus (es : List (LogEntry × String)) :
    ∀ (corpus : List (LogEntry × String)) (s : State), Inv corpus s →
    (corpus.map (fun ep => ep.1.uuid) ++ es.map (fun ep => ep.1.uuid)).Nodup →
    Inv (corpus ++ es) (processCorpus es s) := by
  induction es with
  | nil =>
    intro corpus s hinv _
    simpa using hinv
  | cons ep rest ih =>
    obtain ⟨e, pn⟩ := ep
    intro corpus s hinv hnd
    have hfresh : ∀ ep' ∈ corpus, ep'.1.uuid ≠ e.uuid := by
      intro ep' hep' heq
      rw [List.nodup_append] at hnd
      exact hnd.2.2 (List.mem_map_of_mem _ hep')
        (by rw [List.map_cons, heq]; exact List.mem_cons_self _ _)
    have hnd' : ((corpus ++ [(e, pn)]).map (fun ep => ep.1.uuid) ++
        rest.map (fun ep => ep.1.uuid)).Nodup := by
      rw [List.map_append, List.append_assoc]
      exact hnd
    have hres := ih (corpus ++ [(e, pn)]) (processLogEntry e pn s)
      (hinv.step e pn hfresh) hnd'
    have heqL : (corpus ++ [(e, pn)]) ++ rest = corpus ++ (e, pn) :: rest := by
      simp
    rw [← heqL]
    exact hres

/-- Replaying any sub-list of a corpus over a store that already satisfies
the corpus invariant leaves the store unchanged: every `processLogEntry`
along the way is a fixpoint. -/
theorem processCorpus_fixed (corpus : List (LogEntry × String)) (s : State)
    (hinv : Inv corpus s) :
    ∀ es : List (LogEntry × String), (∀ ep ∈ es, ep ∈ corpus) →
      processCorpus es s = s := by
  intro es
  induction es with
  | nil => intro _; rfl
  | cons ep rest ih =>
    intro hsub
    have hfix : processLogEntry ep.1 ep.2 s = s :=
      processLogEntry_fixpoint ep.1 ep.2 s
        (hinv.sessionExists ep (hsub ep (List.mem_cons_self _ _)))
        (hinv.sessionEnd ep (hsub ep (List.mem_cons_self _ _)))
        (hinv.msgBound ep (hsub ep (List.mem_cons_self _ _)))
        hinv.winOk hinv.sessOk
    show processCorpus rest (processLogEntry ep.1 ep.2 s) = s
    rw [hfix]
    exact ih (fun q hq => hsub q (List.mem_cons_of_mem _ hq))

/-- Processing a concatenated corpus is processing its parts in sequence. -/
theorem processCorpus_append (A B : List (LogEntry × String)) : ∀ s : State,
    processCorpus (A ++ B) s = processCorpus B (processCorpus A s) := by
  induction A with
  | nil => intro s; rfl
  | cons ep rest ih => intro s; exact ih (processLogEntry ep.1 ep.2 s)

/-- `parseJSONLFile` under the no-fault oracle folds the file's entries over
the store. -/
theorem parseJSONLFile_state (parse : String → Option LogEntry) (pn : String)
    (lines : List String) (s : State) :
    (parseJSONLFile parse okOracle lines pn s).state =
      processCorpus ((entriesOfFile parse lines).map (fun e => (e, pn))) s :=
  parseLoop_state parse pn lines s

/-- `syncProjectLogs` under the no-fault oracle folds the readable files'
entries, in file order, over the store. -/
theorem syncProjectLogs_state (parse : String → Option LogEntry) (pn : String) :
    ∀ (files : List (Option (List String))) (s : State) (errs : Nat),
    (syncProjectLogs parse okOracle pn files (s, errs)).1 =
      processCorpus ((files.filterMap id).flatMap
        (fun lines => (entriesOfFile parse lines).map (fun e => (e, pn)))) s := by
  intro files
  induction files with
  | nil => intro s errs; rfl
  | cons file files ih =>
    intro s errs
    cases file with
    | none => exact ih s (errs + 1)
    | some lines =>
      have hstep := ih (parseJSONLFile parse okOracle lines pn s).state
        (if (parseJSONLFile parse okOracle lines pn s).scanErr then errs + 1 else errs)
      show (syncProjectLogs parse okOracle pn files
          ((parseJSONLFile parse okOracle lines pn s).state,
            if (parseJSONLFile parse okOracle lines pn s).scanErr then errs + 1
            else errs)).1 = _
      rw [hstep, parseJSONLFile_state parse pn lines s, ← processCorpus_append]
      rfl

/-- The project loop under the no-fault oracle folds every project's corpus,
in directory order, over the store. -/
theorem syncProjects_state (parse : String → Option LogEntry) :
    ∀ (projects : List (String × List (Option (List String)))) (s : State) (errs : Nat),
    (syncProjects parse okOracle projects (s, errs)).1 =
      processCorpus (projects.flatMap (fun pr =>
        (pr.2.filterMap id).flatMap
          (fun lines => (entriesOfFile parse lines).map (fun e => (e, pr.1))))) s := by
  intro projects
  induction projects with
  | nil => intro s errs; rfl
  | cons pr rest ih =>
    obtain ⟨name, files⟩ := pr
    intro s errs
    show (syncProjects parse okOracle rest
        (syncProjectLogs parse okOracle name files (s, errs))).1 = _
    have hres := ih (syncProjectLogs parse okOracle name files (s, errs)).1
      (syncProjectLogs parse okOracle name files (s, errs)).2
    rw [hres, syncProjectLogs_state parse name files s errs, ← processCorpus_append]
    rfl

/-- A sync run whose directory checks pass executes the project loop. -/
theorem syncAllLogs_run (parse : String → Option LogEntry)
    (oracle : LogEntry → FailPoint) (fs : FS) (s : State)
    (hstat : fs.statOk = true) (hread : fs.readDirOk = true) :
    syncAllLogs parse oracle fs s = .ok (syncProjects parse oracle fs.projects (s, 0)) := by
  unfold syncAllLogs
  rw [hstat, hread]
  rfl

/-- The state component of a whole no-fault sync run is the fold of the run's
flat corpus. -/
theorem syncAllLogs_state (parse : String → Option LogEntry) (fs : FS)
    (s : State) (errs : Nat) :
    (syncProjects parse okOracle fs.projects (s, errs)).1 =
      processCorpus (corpusOfFS parse fs) s :=
  syncProjects_state parse fs.projects s errs

/-- Overwriting an already-present message id: the row is replaced in place. -/
theorem insertMessage_present (m : Message) (s : State)
    (h : (s.messages.any (fun old => old.id == m.id)) = true) :
    insertMessage m s =
      { s with messages := s.messages.map (fun old => if old.id == m.id then m else old) } := by
  unfold insertMessage
  rw [if_pos h]

/-- A one-project, one-file, one-line source tree for the sync run. -/
def fsW : FS :=
  { statOk := true, readDirOk := true, projects := [("p", [some ["v"]])] }

/-- The result of the first no-fault sync run over `fsW` with `parseOnlyV`. -/
def rW : State × Nat := syncProjects parseOnlyV okOracle fsW.projects (emptyState, 0)

/-- C1: re-running the sync over an unchanged corpus is idempotent.
(1) `insertMessage` on an already-present id overwrites the row in place —
the table keeps its length (`INSERT OR REPLACE`, not an append) — and
re-inserting the same message again changes nothing. (2) If a first no-fault
run over a source tree whose corpus has pairwise-distinct message uuids
succeeds with state `r.1`, a second identical run succeeds and its final
state — sessions, windows and messages with all their aggregate values — is
exactly `r.1` again. -/
theorem c1_resync_idempotent :
    (∀ (m : Message) (s : State),
        (s.messages.any (fun old => old.id == m.id)) = true →
        (insertMessage m s).messages =
          s.messages.map (fun old => if old.id == m.id then m else old) ∧
        (insertMessage m s).messages.length = s.messages.length ∧
        insertMessage m (insertMessage m s) = insertMessage m s) ∧
    (∀ (parse : String → Option LogEntry) (fs : FS) (r : State × Nat),
        ((corpusOfFS parse fs).map (fun ep => ep.1.uuid)).Nodup →
        syncAllLogs parse okOracle fs emptyState = Except.ok r →
        (syncAllLogs parse okOracle fs r.1).toOption.map Prod.fst = some r.1) := by
  constructor
  · intro m s h
    have hmsg : (insertMessage m s).messages =
        s.messages.map (fun old => if old.id == m.id then m else old) := by
      rw [insertMessage_present m s h]
    refine ⟨hmsg, by rw [hmsg, List.length_map], ?_⟩
    have h2 : ((insertMessage m s).messages.any (fun old => old.id == m.id)) = true := by
      rw [hmsg]
      obtain ⟨old, hold, holdid⟩ := List.any_eq_true.1 h
      refine List.any_eq_true.2 ⟨if old.id == m.id then m else old,
        List.mem_map_of_mem _ hold, ?_⟩
      rw [if_pos holdid]
      exact beq_self_eq_true _
    rw [insertMessage_present m (insertMessage m s) h2]
    have hmm : (insertMessage m s).messages.map
        (fun old => if old.id == m.id then m else old) = (insertMessage m s).messages := by
      rw [hmsg, List.map_map]
      apply List.map_congr_left
      intro a _
      by_cases hc : (a.id == m.id) = true
      · simp [Function.comp, hc]
      · simp [Function.comp, hc]
    rw [hmm]
  · intro parse fs r hnd hrun
    have hstat : fs.statOk = true := by
      cases hst : fs.statOk with
      | true => rfl
      | false =>
        unfold syncAllLogs at hrun
        rw [hst] at hrun
        exact Except.noConfusion hrun
    have hread : fs.readDirOk = true := by
      cases hrd : fs.readDirOk with
      | true => rfl
      | false =>
        unfold syncAllLogs at hrun
        rw [hstat, hrd] at hrun
        exact Except.noConfusion hrun
    rw [syncAllLogs_run parse okOracle fs emptyState hstat hread] at hrun
    injection hrun with hr
    have hr1 : r.1 = processCorpus (corpusOfFS parse fs) emptyState := by
      rw [← hr]
      exact syncAllLogs_state parse fs emptyState 0
    have hinv : Inv (corpusOfFS parse fs) r.1 := by
      rw [hr1]
      have hfold := Inv_processCorpus (corpusOfFS parse fs) [] emptyState Inv_empty
        (by simpa using hnd)
      simpa using hfold
    rw [syncAllLogs_run parse okOracle fs r.1 hstat hread]
    have hfix : (syncProjects parse okOracle fs.projects (r.1, 0)).1 = r.1 := by
      rw [syncAllLogs_state parse fs r.1 0]
      exact processCorpus_fixed (corpusOfFS parse fs) r.1 hinv (corpusOfFS parse fs)
        (fun q hq => hq)
    show some (syncProjects parse okOracle fs.projects (r.1, 0)).1 = some r.1
    rw [hfix]

theorem c1_resync_idempotent_witness :
    (fixState1.messages.any (fun old => old.id == fixMsg1.id)) = true ∧
    insertMessage fixMsg1 (insertMessage fixMsg1 fixState1) =
      insertMessage fixMsg1 fixState1 ∧
    ((corpusOfFS parseOnlyV fsW).map (fun ep => ep.1.uuid)).Nodup ∧
    syncAllLogs parseOnlyV okOracle fsW emptyState = Except.ok rW ∧
    (syncAllLogs parseOnlyV okOracle fsW rW.1).toOption.map Prod.fst = some rW.1 := by
  refine ⟨by decide, (c1_resync_idempotent.1 fixMsg1 fixState1 (by decide)).2.2,
    by decide, rfl, c1_resync_idempotent.2 parseOnlyV fsW rW (by decide) rfl⟩

end Claudeee
